import Mathlib

/-
Verification of the content-generation and recipe-extraction core of a
WordPress article automation system (source files: src/openai.js,
src/recipe-extraction.js and the publication formatter of src/wordpress.js).

Strings are modelled as lists of characters.  JavaScript regular
expressions used by the source are either embedded through a small
backtracking matcher over an explicit regex syntax tree, or — for the
dynamically built whole-word patterns of the term suppressor — through a
dedicated scanning function mirroring the construction
new RegExp("\\b" + escapeRegExp(term) + "\\b", "gi").
-/

namespace WP

/-- ASCII lowercasing; models JavaScript String.prototype.toLowerCase on the
ASCII range (the source only lowercases ASCII search terms; exotic Unicode
lowercasings are out of scope of this model). -/
def lowc (c : Char) : Char :=
  if 'A' ≤ c && c ≤ 'Z' then Char.ofNat (c.toNat + 32) else c

/-- Lowercase a string (content.toLowerCase()). -/
def lows (s : List Char) : List Char := s.map lowc

/-- Case-insensitive character equality, as produced by the regex flag i. -/
def eqCI (a b : Char) : Bool := lowc a == lowc b

/-- JavaScript regex word characters [A-Za-z0-9_] (the class that the word
boundary assertion of a regex without the u flag is defined by). -/
def isWordChar (c : Char) : Bool :=
  ('a' ≤ c && c ≤ 'z') || ('A' ≤ c && c ≤ 'Z') || ('0' ≤ c && c ≤ '9') || c == '_'

/-- Word-character test on an optional character (none = outside the string). -/
def isWordO : Option Char → Bool
  | none => false
  | some c => isWordChar c

/-- A word boundary sits between two (optional) characters iff exactly one
side is a word character. -/
def wordB (a b : Option Char) : Bool := isWordO a != isWordO b

/-- View a Lean string literal as the character list it denotes. -/
def str (s : String) : List Char := s.data

/-- JavaScript whitespace (the set matched by the regex class backslash-s and
stripped by String.prototype.trim). -/
def isJsWs (c : Char) : Bool :=
  c == ' ' || c == '\t' || c == '\n' || c == '\r' || c == '\x0b' || c == '\x0c' ||
  c == '\u00a0' || c == '\u1680' || ('\u2000' ≤ c && c ≤ '\u200a') ||
  c == '\u2028' || c == '\u2029' || c == '\u202f' || c == '\u205f' ||
  c == '\u3000' || c == '\ufeff'

/-- String.prototype.trim. -/
def jsTrim (s : List Char) : List Char :=
  ((s.dropWhile isJsWs).reverse.dropWhile isJsWs).reverse

/-- Case-insensitive prefix test. -/
def ciPrefix : List Char → List Char → Bool
  | [], _ => true
  | _ :: _, [] => false
  | a :: as, b :: bs => eqCI a b && ciPrefix as bs

/-- Exact (case-sensitive) substring occurrence at the head. -/
def isPre : List Char → List Char → Bool
  | [], _ => true
  | _ :: _, [] => false
  | a :: as, b :: bs => (a == b) && isPre as bs

/-- String.prototype.includes: exact substring containment. -/
def containsSub (pat : List Char) : List Char → Bool
  | [] => isPre pat []
  | c :: rest => isPre pat (c :: rest) || containsSub pat rest

/-- Whole-word case-insensitive match of the nonempty term t0 :: ts at the
head of s, where prev is the character immediately before this position:
a match of the JavaScript regex \b<term>\b (flags gi) at this position.
The boundary tests use the characters of the text, as the regex engine does. -/
def wwAt (t0 : Char) (ts : List Char) (prev : Option Char) (s : List Char) : Bool :=
  ciPrefix (t0 :: ts) s && wordB prev s.head? &&
    wordB ((s.take (ts.length + 1)).getLast?) ((s.drop (ts.length + 1)).head?)

/-- content.replace(new RegExp("\\b" + escapeRegExp(term) + "\\b", "gi"), repl)
for the nonempty term t0 :: ts: scan left to right, replacing every
whole-word occurrence; matching always looks at the original characters
(global replace locates all matches in the input string).  Fuel makes the
recursion structural; every step consumes at least one character, so the
text length supplied by replaceWW always suffices. -/
def rw (t0 : Char) (ts : List Char) (repl : List Char) :
    Nat → Option Char → List Char → List Char
  | 0, _, s => s
  | f + 1, prev, s =>
    match s with
    | [] => []
    | c :: rest =>
      if wwAt t0 ts prev (c :: rest) then
        repl ++ rw t0 ts repl f (((c :: rest).take (ts.length + 1)).getLast?)
          ((c :: rest).drop (ts.length + 1))
      else c :: rw t0 ts repl f (some c) rest

/-- Does the text contain a whole-word case-insensitive occurrence of the
nonempty term t0 :: ts, with prev the character before the scan start? -/
def hasWW (t0 : Char) (ts : List Char) : Option Char → List Char → Bool
  | _, [] => false
  | prev, c :: rest => wwAt t0 ts prev (c :: rest) || hasWW t0 ts (some c) rest

/-- Replacement dispatch on a possibly empty term.  The source only reaches
the replacement with nonempty terms (empty ones are filtered out at
openai.js line 198), so the empty case is unreachable there. -/
def replaceWW (t repl s : List Char) : List Char :=
  match t with
  | [] => s
  | t0 :: ts => rw t0 ts repl s.length none s

/-- Whole-word case-insensitive containment of a term in a whole string. -/
def containsWW (t s : List Char) : Bool :=
  match t with
  | [] => false
  | t0 :: ts => hasWW t0 ts none s

/-- The literal replacement text used by the term suppressor. -/
def altRepl : List Char := str "[alternative]"

/-- The single quote character (codepoint 39). -/
def sq : Char := Char.ofNat 39

/-- Push a matched raw term onto the result list, trimming and dropping it
when the trimmed term is empty (the loop body of parseAvoidTerms). -/
def pushTerm (run : List Char) (acc : List (List Char)) : List (List Char) :=
  let tm := jsTrim run
  if tm.isEmpty then acc else tm :: acc

/-- parseAvoidTerms (openai.js lines 219-241): the exec loop of the regex
with three alternatives — a double-quoted run, a single-quoted run, or a
nonempty run free of commas and quotes.  A position where no alternative
matches is skipped; a quoted alternative needs at least one inner character
and a closing quote.  Fuel makes the recursion structural. -/
def parseAvoidTermsF : Nat → List Char → List (List Char)
  | 0, _ => []
  | f + 1, s =>
    match s with
    | [] => []
    | c :: rest =>
      if c == '"' then
        let run := rest.takeWhile (fun d => d != '"')
        match rest.drop run.length with
        | '"' :: after =>
          if run.isEmpty then parseAvoidTermsF f rest
          else pushTerm run (parseAvoidTermsF f after)
        | _ => parseAvoidTermsF f rest
      else if c == sq then
        let run := rest.takeWhile (fun d => d != sq)
        match rest.drop run.length with
        | d :: after =>
          if d == sq then
            if run.isEmpty then parseAvoidTermsF f rest
            else pushTerm run (parseAvoidTermsF f after)
          else parseAvoidTermsF f rest
        | _ => parseAvoidTermsF f rest
      else
        match (c :: rest).takeWhile (fun d => !(d == ',' || d == '"' || d == sq)) with
        | [] => parseAvoidTermsF f rest
        | r0 :: rs =>
          pushTerm (r0 :: rs) (parseAvoidTermsF f ((c :: rest).drop (rs.length + 1)))

/-- parseAvoidTerms with its sufficient fuel (every step of the loop
advances by at least one character). -/
def parseAvoidTerms (s : List Char) : List (List Char) := parseAvoidTermsF s.length s

/-- Characters matched by the regex dot (no s flag): everything except the
four line terminators. -/
def dotOk (c : Char) : Bool :=
  !(c == '\n' || c == '\r' || c == '\u2028' || c == '\u2029')

/-- One normalization step of an avoid term:
term.replace(quotePairRegex, "$1") for the anchored pattern that strips one
surrounding (possibly mismatched) quote pair with a nonempty interior; when
the pattern does not match the term is returned unchanged. -/
def stripQuotePair (s : List Char) : List Char :=
  match s with
  | [] => []
  | c :: rest =>
    let mid := rest.dropLast
    if (c == '"' || c == sq) &&
        (match rest.getLast? with
         | some d => d == '"' || d == sq
         | none => false) &&
        !mid.isEmpty && mid.all dotOk then mid else s

/-- Avoid-term normalization (openai.js lines 194-198): trim, strip one
quote pair, lowercase. -/
def normalizeTerm (t : List Char) : List Char :=
  lows (stripQuotePair (jsTrim t))

/-- JSON values, for the JSON.parse branch of removeProhibitedContent. -/
inductive Jv where
  | jnull
  | jbool (b : Bool)
  | jnum
  | jstr (s : List Char)
  | jarr (elems : List Jv)
  | jobj (fields : List (List Char × Jv))

/-- JSON insignificant whitespace. -/
def jsonWs (c : Char) : Bool :=
  c == ' ' || c == '\t' || c == '\n' || c == '\r'

/-- Is this a hexadecimal digit? -/
def isHexDigit (c : Char) : Bool :=
  ('0' ≤ c && c ≤ '9') || ('a' ≤ c && c ≤ 'f') || ('A' ≤ c && c ≤ 'F')

/-- Numeric value of a hexadecimal digit. -/
def hexVal (c : Char) : Nat :=
  if '0' ≤ c && c ≤ '9' then c.toNat - '0'.toNat
  else if 'a' ≤ c && c ≤ 'f' then c.toNat - 'a'.toNat + 10
  else if 'A' ≤ c && c ≤ 'F' then c.toNat - 'A'.toNat + 10
  else 0

/-- Parse the remainder of a JSON string literal (after the opening quote),
returning its decoded characters and the input after the closing quote. -/
def jsonStringRest : Nat → List Char → Option (List Char × List Char)
  | 0, _ => none
  | _ + 1, [] => none
  | f + 1, c :: rest =>
    if c == '"' then some ([], rest)
    else if c == '\\' then
      match rest with
      | [] => none
      | e :: rest2 =>
        if e == '"' || e == '\\' || e == '/' then
          (jsonStringRest f rest2).map (fun p => (e :: p.1, p.2))
        else if e == 'b' then (jsonStringRest f rest2).map (fun p => ('\x08' :: p.1, p.2))
        else if e == 'f' then (jsonStringRest f rest2).map (fun p => ('\x0c' :: p.1, p.2))
        else if e == 'n' then (jsonStringRest f rest2).map (fun p => ('\n' :: p.1, p.2))
        else if e == 'r' then (jsonStringRest f rest2).map (fun p => ('\r' :: p.1, p.2))
        else if e == 't' then (jsonStringRest f rest2).map (fun p => ('\t' :: p.1, p.2))
        else if e == 'u' then
          match rest2 with
          | h1 :: h2 :: h3 :: h4 :: rest3 =>
            if isHexDigit h1 && isHexDigit h2 && isHexDigit h3 && isHexDigit h4 then
              let n := ((hexVal h1 * 16 + hexVal h2) * 16 + hexVal h3) * 16 + hexVal h4
              let ch := if n < 0xd800 || 0xdfff < n then Char.ofNat n else Char.ofNat 0xfffd
              (jsonStringRest f rest3).map (fun p => (ch :: p.1, p.2))
            else none
          | _ => none
        else none
    else if c.toNat < 0x20 then none
    else (jsonStringRest f rest).map (fun p => (c :: p.1, p.2))

/-- Consume a JSON number (sign, integer part, optional fraction and
exponent); its value is irrelevant to the source, only well-formedness. -/
def jsonNumberRest (s : List Char) : Option (List Char) :=
  let afterSign := if s.head? == some '-' then s.drop 1 else s
  match afterSign with
  | [] => none
  | d :: rest =>
    if d == '0' then
      jsonFracExp rest
    else if '1' ≤ d && d ≤ '9' then
      jsonFracExp (rest.dropWhile (fun c => '0' ≤ c && c ≤ '9'))
    else none
where
  jsonFracExp (s : List Char) : Option (List Char) :=
    let afterFrac :=
      match s with
      | '.' :: r =>
        let digs := r.takeWhile (fun c => '0' ≤ c && c ≤ '9')
        if digs.isEmpty then none else some (r.drop digs.length)
      | _ => some s
    match afterFrac with
    | none => none
    | some s2 =>
      match s2 with
      | e :: r =>
        if e == 'e' || e == 'E' then
          let r2 := if r.head? == some '+' || r.head? == some '-' then r.drop 1 else r
          let digs := r2.takeWhile (fun c => '0' ≤ c && c ≤ '9')
          if digs.isEmpty then none else some (r2.drop digs.length)
        else some s2
      | [] => some s2

mutual

/-- Parse one JSON value at the head of the input (leading whitespace
allowed), returning it and the remaining input. -/
def jsonVal : Nat → List Char → Option (Jv × List Char)
  | 0, _ => none
  | f + 1, s =>
    match s.dropWhile jsonWs with
    | [] => none
    | c :: rest =>
      if c == '"' then
        (jsonStringRest (rest.length + 1) rest).map (fun p => (Jv.jstr p.1, p.2))
      else if c == '[' then
        match (rest.dropWhile jsonWs) with
        | ']' :: r => some (Jv.jarr [], r)
        | _ => (jsonElems f rest).map (fun p => (Jv.jarr p.1, p.2))
      else if c == '{' then
        match (rest.dropWhile jsonWs) with
        | '}' :: r => some (Jv.jobj [], r)
        | _ => (jsonFields f rest).map (fun p => (Jv.jobj p.1, p.2))
      else if c == 't' then
        match rest with
        | 'r' :: 'u' :: 'e' :: r => some (Jv.jbool true, r)
        | _ => none
      else if c == 'f' then
        match rest with
        | 'a' :: 'l' :: 's' :: 'e' :: r => some (Jv.jbool false, r)
        | _ => none
      else if c == 'n' then
        match rest with
        | 'u' :: 'l' :: 'l' :: r => some (Jv.jnull, r)
        | _ => none
      else
        (jsonNumberRest (c :: rest)).map (fun r => (Jv.jnum, r))

/-- Parse the elements of a nonempty JSON array (after the opening bracket),
including the closing bracket. -/
def jsonElems : Nat → List Char → Option (List Jv × List Char)
  | 0, _ => none
  | f + 1, s =>
    match jsonVal f s with
    | none => none
    | some (v, rest) =>
      match rest.dropWhile jsonWs with
      | ',' :: r => (jsonElems f r).map (fun p => (v :: p.1, p.2))
      | ']' :: r => some ([v], r)
      | _ => none

/-- Parse the fields of a nonempty JSON object (after the opening brace),
including the closing brace. -/
def jsonFields : Nat → List Char → Option (List (List Char × Jv) × List Char)
  | 0, _ => none
  | f + 1, s =>
    match s.dropWhile jsonWs with
    | '"' :: rest =>
      match jsonStringRest (rest.length + 1) rest with
      | none => none
      | some (key, rest2) =>
        match rest2.dropWhile jsonWs with
        | ':' :: rest3 =>
          match jsonVal f rest3 with
          | none => none
          | some (v, rest4) =>
            match rest4.dropWhile jsonWs with
            | ',' :: r => (jsonFields f r).map (fun p => ((key, v) :: p.1, p.2))
            | '}' :: r => some ([(key, v)], r)
            | _ => none
        | _ => none
    | _ => none

end

/-- JSON.parse: parse a complete JSON document (trailing whitespace only). -/
def jsonParse (s : List Char) : Option Jv :=
  match jsonVal (s.length + 1) s with
  | some (v, rest) => if (rest.dropWhile jsonWs).isEmpty then some v else none
  | none => none

/-- Collect the elements of a parsed avoid-list array as strings; a
non-string element makes the subsequent term.trim() call of the source throw
a TypeError, modelled as none. -/
def jvStrings : List Jv → Option (List (List Char))
  | [] => some []
  | Jv.jstr s :: rest => (jvStrings rest).map (fun l => s :: l)
  | _ :: _ => none

/-- The raw avoid-term list of removeProhibitedContent (openai.js lines
179-191): a spec that trims to bracket-delimited text is first given to
JSON.parse (falling back to parseAvoidTerms when parsing throws); a parsed
array with a non-string element later crashes the normalization map, giving
none. -/
def avoidTermsRaw (spec : List Char) : Option (List (List Char)) :=
  let t := jsTrim spec
  if t.head? == some '[' && t.getLast? == some ']' then
    match jsonParse spec with
    | some (Jv.jarr xs) => jvStrings xs
    | some _ => some (parseAvoidTerms spec)
    | none => some (parseAvoidTerms spec)
  else some (parseAvoidTerms spec)

/-- The normalized avoid terms of a specification. -/
def avoidTerms (spec : List Char) : Option (List (List Char)) :=
  (avoidTermsRaw spec).map
    (fun raw => (raw.map normalizeTerm).filter (fun t => t.length > 0))

/-- removeProhibitedContent (openai.js lines 177-212): parse and normalize
the avoid terms, then replace every whole-word occurrence of each term, in
parse order, by the literal replacement text; none models the TypeError
thrown on a JSON array containing a non-string. -/
def removeProhibitedContent (content spec : List Char) : Option (List Char) :=
  (avoidTerms spec).map
    (fun terms => terms.foldl (fun acc t => replaceWW t altRepl acc) content)

/-! ### A small backtracking regex matcher

Syntax trees for the (static) regular expressions of the source, and a
matcher producing the full priority-ordered list of possible matches at a
position, exactly as a backtracking engine explores them: alternation is
left first, greedy repetition longest first, lazy repetition shortest
first, and a repetition iteration that consumes nothing ends the loop. -/

/-- Regex syntax trees covering the constructs used by the source. -/
inductive RE where
  | eps
  | lit (c : Char)
  | cls (neg : Bool) (ranges : List (Char × Char))
  | dot
  | wild
  | wsp
  | dig
  | seq (a b : RE)
  | alt (a b : RE)
  | star (lazy : Bool) (a : RE)
  | grp (idx : Nat) (a : RE)
  | eos

/-- Does a character belong to a (possibly negated) character class?  Under
the i flag both the character and its lowercasing are tried (ASCII
canonicalization). -/
def chClass (ci : Bool) (neg : Bool) (ranges : List (Char × Char)) (d : Char) : Bool :=
  let hit (e : Char) : Bool := ranges.any (fun r => r.1 ≤ e && e ≤ r.2)
  let inside := hit d || (ci && hit (lowc d))
  if neg then !inside else inside

/-- Captures: group index paired with the captured characters; the most
recent assignment comes first. -/
abbrev Caps := List (Nat × List Char)

/-- The structural size of a regex, used to compute a sufficient fuel. -/
def reSize : RE → Nat
  | RE.seq a b => reSize a + reSize b + 1
  | RE.alt a b => reSize a + reSize b + 1
  | RE.star _ a => reSize a + 1
  | RE.grp _ a => reSize a + 1
  | _ => 1

/-- All matches of a regex at the head of s, each as (number of characters
consumed, captures), in backtracking priority order; ci selects
case-insensitive comparison of literals (the i flag).  Fuel makes the
recursion structural; every recursive call strictly decreases
2 * s.length + reSize re, so the fuel supplied by reMOf never runs out. -/
def reM (ci : Bool) : Nat → RE → List Char → List (Nat × Caps)
  | 0, _, _ => []
  | f + 1, re, s =>
    match re with
    | RE.eps => [(0, [])]
    | RE.lit c =>
      match s with
      | [] => []
      | d :: _ => if (if ci then eqCI c d else c == d) then [(1, [])] else []
    | RE.cls neg rs =>
      match s with
      | [] => []
      | d :: _ => if chClass ci neg rs d then [(1, [])] else []
    | RE.dot =>
      match s with
      | [] => []
      | d :: _ => if dotOk d then [(1, [])] else []
    | RE.wild =>
      match s with
      | [] => []
      | _ :: _ => [(1, [])]
    | RE.wsp =>
      match s with
      | [] => []
      | d :: _ => if isJsWs d then [(1, [])] else []
    | RE.dig =>
      match s with
      | [] => []
      | d :: _ => if '0' ≤ d && d ≤ '9' then [(1, [])] else []
    | RE.seq a b =>
      (reM ci f a s).flatMap (fun p =>
        (reM ci f b (s.drop p.1)).map (fun q => (p.1 + q.1, q.2 ++ p.2)))
    | RE.alt a b => reM ci f a s ++ reM ci f b s
    | RE.star lz a =>
      let more := (reM ci f a s).flatMap (fun p =>
        if p.1 == 0 then []
        else (reM ci f (RE.star lz a) (s.drop p.1)).map
          (fun q => (p.1 + q.1, q.2 ++ p.2)))
      if lz then (0, []) :: more else more ++ [(0, [])]
    | RE.grp i a => (reM ci f a s).map (fun p => (p.1, (i, s.take p.1) :: p.2))
    | RE.eos =>
      match s with
      | [] => [(0, [])]
      | _ :: _ => []

/-- The matches of a regex at the head of s, with sufficient fuel. -/
def reMOf (ci : Bool) (re : RE) (s : List Char) : List (Nat × Caps) :=
  reM ci (2 * s.length + reSize re + 1) re s

/-- The result of a successful regex search: text before the match, the
matched text, the text after it, and the captures. -/
structure MatchRes where
  pre : List Char
  mat : List Char
  post : List Char
  caps : Caps
deriving DecidableEq

/-- Leftmost search: try the regex at every position, earliest first. -/
def reFindGo (ci : Bool) (re : RE) : List Char → List Char → Option MatchRes
  | acc, s =>
    match (reMOf ci re s).head? with
    | some p => some ⟨acc.reverse, s.take p.1, s.drop p.1, p.2⟩
    | none =>
      match s with
      | [] => none
      | c :: rest => reFindGo ci re (c :: acc) rest

/-- String.match without the g flag / RegExp.test: the first match. -/
def reFind (ci : Bool) (re : RE) (s : List Char) : Option MatchRes :=
  reFindGo ci re [] s

/-- Captured group lookup (undefined group = none). -/
def capGet (m : MatchRes) (i : Nat) : Option (List Char) :=
  List.lookup i m.caps

/-- String.match with the g flag: the list of matched substrings (an empty
match advances the scan by one character). -/
def reMatchAll (ci : Bool) (re : RE) : Nat → List Char → List (List Char)
  | 0, _ => []
  | f + 1, s =>
    match reFind ci re s with
    | none => []
    | some m =>
      m.mat ::
        (if m.mat.isEmpty then
          match m.post with
          | [] => []
          | _ :: r => reMatchAll ci re f r
        else reMatchAll ci re f m.post)

/-- Expand a replacement template at a match: handles the dollar escapes for
the whole match, a literal dollar and the numbered groups (a group that did
not participate expands to nothing; the source only uses templates whose
groups always participate). -/
def expandTpl (mat : List Char) (caps : Caps) : List Char → List Char
  | [] => []
  | '$' :: c :: rest =>
    if c == '$' then '$' :: expandTpl mat caps rest
    else if c == '&' then mat ++ expandTpl mat caps rest
    else if '1' ≤ c && c ≤ '9' then
      (match List.lookup (c.toNat - '0'.toNat) caps with
       | some v => v
       | none => []) ++ expandTpl mat caps rest
    else '$' :: c :: expandTpl mat caps rest
  | c :: rest => c :: expandTpl mat caps rest

/-- String.replace with the g flag and a template replacement string. -/
def reReplaceAll (ci : Bool) (re : RE) (tpl : List Char) : Nat → List Char → List Char
  | 0, s => s
  | f + 1, s =>
    match reFind ci re s with
    | none => s
    | some m =>
      m.pre ++ expandTpl m.mat m.caps tpl ++
        (if m.mat.isEmpty then
          match m.post with
          | [] => []
          | c :: r => c :: reReplaceAll ci re tpl f r
        else reReplaceAll ci re tpl f m.post)

/-- String.replace without the g flag: replace only the first match. -/
def reReplaceFirst (ci : Bool) (re : RE) (tpl : List Char) (s : List Char) : List Char :=
  match reFind ci re s with
  | none => s
  | some m => m.pre ++ expandTpl m.mat m.caps tpl ++ m.post

/-- String.split on a regex (none of the source's split regexes can match
the empty string or contain groups). -/
def reSplit (ci : Bool) (re : RE) : Nat → List Char → List (List Char)
  | 0, s => [s]
  | f + 1, s =>
    match reFind ci re s with
    | none => [s]
    | some m =>
      if m.mat.isEmpty then [s]
      else m.pre :: reSplit ci re f m.post

/-- RegExp.test / the truthiness of String.match. -/
def reTest (ci : Bool) (re : RE) (s : List Char) : Bool :=
  (reFind ci re s).isSome

/-- Anchored first-match removal, for the source patterns anchored with a
leading caret (replace of a first match that can only occur at the start). -/
def reStripAnchored (ci : Bool) (re : RE) (s : List Char) : List Char :=
  match (reMOf ci re s).head? with
  | some p => s.drop p.1
  | none => s

/-- Sequence a list of regexes. -/
def reSeqL (l : List RE) : RE := l.foldr RE.seq RE.eps

/-- A literal string regex. -/
def reStr (cs : List Char) : RE := reSeqL (cs.map RE.lit)

/-- Greedy option. -/
def reOpt (a : RE) : RE := RE.alt a RE.eps

/-- Greedy plus. -/
def rePlus (a : RE) : RE := RE.seq a (RE.star false a)

/-- Ordered alternation of a list of regexes (never-matching when empty). -/
def reAlts : List RE → RE
  | [] => RE.cls false []
  | [x] => x
  | x :: xs => RE.alt x (reAlts xs)

/-! ### The regular expressions of recipe-extraction.js -/

/-- The class [^<]. -/
def notLt : RE := RE.cls true [('<', '<')]

/-- The class [^>]. -/
def notGt : RE := RE.cls true [('>', '>')]

/-- The class [2-3]. -/
def cls23 : RE := RE.cls false [('2', '3')]

/-- The paragraph pattern of the source (dot does not cross newlines). -/
def rePara : RE :=
  reSeqL [reStr (str "<p>"), RE.grp 1 (RE.star true RE.dot), reStr (str "</p>")]

/-- The opening or closing paragraph tag. -/
def rePTag : RE := reSeqL [RE.lit '<', reOpt (RE.lit '/'), reStr (str "p>")]

/-- A section regex: an h2/h3 heading whose text matches the given
alternatives, a lazily captured body, up to the next h2/h3 opening or a
closing body tag. -/
def reSection (alts : RE) : RE :=
  reSeqL [reStr (str "<h"), cls23, RE.star false notGt, RE.lit '>',
    alts,
    reStr (str "</h"), cls23, RE.lit '>',
    RE.grp 1 (RE.star true RE.wild),
    RE.alt (reSeqL [reStr (str "<h"), cls23]) (reStr (str "</body"))]

/-- Heading alternatives of the ingredients section. -/
def reIngHead : RE :=
  RE.alt (RE.seq (RE.star false notLt) (reStr (str "ingredients")))
    (RE.seq (reStr (str "ingredients")) (RE.star false notLt))

/-- Heading alternatives of the instructions section (the open-ended runs
sit only on the first and last alternative, as in the source). -/
def reInsHead : RE :=
  reAlts [RE.seq (RE.star false notLt) (reStr (str "instructions")),
    reStr (str "directions"), reStr (str "method"), reStr (str "steps"),
    RE.seq (reStr (str "how to")) (RE.star false notLt)]

/-- Heading alternatives of the notes section. -/
def reNotesHead : RE :=
  reAlts [RE.seq (RE.star false notLt) (reStr (str "notes")),
    reStr (str "tips"), reStr (str "additional"),
    RE.seq (reStr (str "advice")) (RE.star false notLt)]

/-- Heading alternatives of the nutrition section. -/
def reNutHead : RE :=
  reAlts [RE.seq (RE.star false notLt) (reStr (str "nutrition")),
    reStr (str "nutritional"),
    RE.seq (reStr (str "nutrients")) (RE.star false notLt)]

/-- An unordered list with a lazily captured body. -/
def reUl : RE :=
  reSeqL [reStr (str "<ul>"), RE.grp 1 (RE.star true RE.wild), reStr (str "</ul>")]

/-- An ordered list with a lazily captured body. -/
def reOl : RE :=
  reSeqL [reStr (str "<ol>"), RE.grp 1 (RE.star true RE.wild), reStr (str "</ol>")]

/-- The line-break split pattern. -/
def reBr : RE :=
  reSeqL [reStr (str "<br"), RE.star false RE.wsp, reOpt (RE.lit '/'), RE.lit '>']

/-- The leading step-number pattern stripped from instruction paragraphs. -/
def reLeadNum : RE :=
  reSeqL [rePlus RE.dig,
    rePlus (RE.cls false [('.', '.'), (')', ')'), ('-', '-')]),
    RE.star false RE.wsp]

/-- A header with its captured text. -/
def reHeader : RE :=
  reSeqL [reStr (str "<h"), cls23, RE.star false notGt, RE.lit '>',
    RE.grp 1 (RE.star true RE.dot),
    reStr (str "</h"), cls23, RE.lit '>']

/-- An opening or closing h2/h3 tag (stripped from header text). -/
def reHTag : RE :=
  reSeqL [RE.lit '<', reOpt (RE.lit '/'), RE.lit 'h', cls23,
    RE.star false notGt, RE.lit '>']

/-- The header keyword filter of extractKeywords. -/
def reHdrKw : RE :=
  reAlts [reStr (str "ingredients"), reStr (str "instructions"),
    reStr (str "steps"), reStr (str "notes"), reStr (str "tips")]

/-- The shared tail of the three time patterns, from the word time on:
time:?\s*(\d+)(?:\s+to\s+(\d+))?\s+(minutes|hours). -/
def reTimeCore : RE :=
  reSeqL [reStr (str "time"), reOpt (RE.lit ':'),
    RE.star false RE.wsp, RE.grp 1 (rePlus RE.dig),
    reOpt (reSeqL [rePlus RE.wsp, reStr (str "to"), rePlus RE.wsp,
      RE.grp 2 (rePlus RE.dig)]),
    rePlus RE.wsp,
    RE.grp 3 (RE.alt (reStr (str "minutes")) (reStr (str "hours")))]

/-- The prep time pattern of the source: prep(?:aration)? then mandatory
whitespace before the word time. -/
def rePrepTime : RE :=
  reSeqL [reStr (str "prep"), reOpt (reStr (str "aration")), rePlus RE.wsp, reTimeCore]

/-- The cook time pattern of the source. -/
def reCookTime : RE :=
  reSeqL [reStr (str "cook"), reOpt (reStr (str "ing")), rePlus RE.wsp, reTimeCore]

/-- The total time pattern of the source. -/
def reTotalTime : RE := reSeqL [reStr (str "total"), rePlus RE.wsp, reTimeCore]

/-- The yield pattern. -/
def reYield : RE :=
  reSeqL [reAlts [reStr (str "serves"), reStr (str "servings"),
      reStr (str "yield"), reStr (str "makes")],
    RE.lit ':', RE.star false RE.wsp, RE.grp 1 (rePlus RE.dig),
    reOpt (reSeqL [RE.star false RE.wsp, RE.lit '-', RE.star false RE.wsp,
      RE.grp 2 (rePlus RE.dig)])]

/-- The decimal quantity pattern of the nutrition numbers. -/
def reNum : RE := reSeqL [rePlus RE.dig, reOpt (RE.lit '.'), RE.star false RE.dig]

/-- A nutrition entry: label, optional colon, quantity, unit alternatives. -/
def reNutEntry (label : RE) (units : RE) : RE :=
  reSeqL [label, reOpt (RE.lit ':'), RE.star false RE.wsp,
    RE.grp 1 reNum, RE.star false RE.wsp, RE.grp 2 units]

/-- Gram units, in source order. -/
def reGrams : RE := RE.alt (reStr (str "g")) (reStr (str "grams"))

/-- Milligram units, in source order. -/
def reMg : RE := RE.alt (reStr (str "mg")) (reStr (str "milligrams"))

/-- The calories pattern (integer quantity, no unit). -/
def reCalories : RE :=
  reSeqL [reStr (str "calories"), reOpt (RE.lit ':'), RE.star false RE.wsp,
    RE.grp 1 (rePlus RE.dig)]

/-- The carbohydrate label carb(ohydrate)?s. -/
def reCarbLabel : RE :=
  reSeqL [reStr (str "carb"), reOpt (reStr (str "ohydrate")), reStr (str "s")]

/-! ### recipe-extraction.js, embedded -/

/-- extractDescription (recipe-extraction.js lines 58-76). -/
def extractDescription (content : List Char) : List Char :=
  let paragraphs := reMatchAll false rePara (content.length + 1) content
  match paragraphs with
  | [] => str "A delicious and easy recipe that everyone will love."
  | p0 :: rest =>
    let d0 := reReplaceAll false rePTag [] (p0.length + 1) p0
    let d1 :=
      match rest with
      | p1 :: _ =>
        if d0.length < 50 then reReplaceAll false rePTag [] (p1.length + 1) p1 else d0
      | [] => d0
    if 300 < d1.length then d1.take 297 ++ str "..." else d1

/-- Truthiness of an optional capture (a captured empty string is falsy in
the source's guards). -/
def capTruthy (o : Option (List Char)) : Bool :=
  match o with
  | some (_ :: _) => true
  | _ => false

/-- The nonempty capture 1 of a section match, when the section matched. -/
def sectionBody (alts : RE) (content : List Char) : Option (List Char) :=
  match reFind true (reSection alts) content with
  | none => none
  | some m =>
    match capGet m 1 with
    | some (c :: cs) => some (c :: cs)
    | _ => none

/-- extractIngredients (recipe-extraction.js lines 81-133). -/
def extractIngredients (content : List Char) : List Char :=
  let fromSection :=
    match sectionBody reIngHead content with
    | none => ([] : List Char)
    | some body =>
      match reFind true reUl body with
      | some m =>
        match capGet m 1 with
        | some (c :: cs) => str "<ul>" ++ (c :: cs) ++ str "</ul>"
        | _ => fromLines body
      | none => fromLines body
  let afterLists :=
    if fromSection.isEmpty || fromSection == str "<ul></ul>" then
      let allLists := reMatchAll false reUl (content.length + 1) content
      match allLists.find? (fun l =>
          containsSub (str "cup") (lows l) || containsSub (str "teaspoon") (lows l) ||
          containsSub (str "tablespoon") (lows l) || containsSub (str "ounce") (lows l) ||
          containsSub (str "pound") (lows l)) with
      | some l => l
      | none => fromSection
    else fromSection
  if afterLists.isEmpty || afterLists == str "<ul></ul>" then
    str "<ul><li>Ingredient 1</li><li>Ingredient 2</li><li>Ingredient 3</li></ul>"
  else afterLists
where
  /-- The line-splitting branch: synthesize list items from br-separated
  lines that are not tag-like and are longer than three characters. -/
  fromLines (body : List Char) : List Char :=
    let lines := reSplit false reBr (body.length + 1) body
    if 2 < lines.length then
      str "<ul>" ++
        (lines.foldl (fun acc line =>
          let line := jsTrim line
          if !line.isEmpty && !(line.head? == some '<') && !(line.getLast? == some '>') &&
              3 < line.length then
            acc ++ str "<li>" ++ line ++ str "</li>"
          else acc) []) ++ str "</ul>"
    else []

/-- extractInstructions (recipe-extraction.js lines 138-189). -/
def extractInstructions (content : List Char) : List Char :=
  let fromSection :=
    match sectionBody reInsHead content with
    | none => ([] : List Char)
    | some body =>
      match reFind true reOl body with
      | some m =>
        match capGet m 1 with
        | some (c :: cs) => str "<ol>" ++ (c :: cs) ++ str "</ol>"
        | _ => fromParas body
      | none => fromParas body
  let afterLists :=
    if fromSection.isEmpty || fromSection == str "<ol></ol>" then
      let allOl := reMatchAll false reOl (content.length + 1) content
      match allOl with
      | [] => fromSection
      | _ :: _ =>
        allOl.foldl (fun longest l => if longest.length < l.length then l else longest) []
    else fromSection
  if afterLists.isEmpty || afterLists == str "<ol></ol>" then
    str "<ol><li>Step 1</li><li>Step 2</li><li>Step 3</li></ol>"
  else afterLists
where
  /-- The paragraph branch: number the section's paragraphs, stripping any
  leading step markers. -/
  fromParas (body : List Char) : List Char :=
    let paragraphs := reMatchAll false rePara (body.length + 1) body
    if 1 < paragraphs.length then
      str "<ol>" ++
        (paragraphs.foldl (fun acc p =>
          let t := jsTrim (reReplaceAll false rePTag [] (p.length + 1) p)
          if !t.isEmpty && 5 < t.length then
            acc ++ str "<li>" ++ reStripAnchored false reLeadNum t ++ str "</li>"
          else acc) []) ++ str "</ol>"
    else []

/-- extractNotes (recipe-extraction.js lines 194-228). -/
def extractNotes (content : List Char) : List Char :=
  let notes :=
    match sectionBody reNotesHead content with
    | none => ([] : List Char)
    | some body =>
      match reFind true reUl body with
      | some m =>
        match capGet m 1 with
        | some (c :: cs) => str "<ul>" ++ (c :: cs) ++ str "</ul>"
        | _ => fromParas body
      | none => fromParas body
  if notes.isEmpty then
    str "<ul><li>For best results, let the dish rest for 5 minutes before serving.</li></ul>"
  else notes
where
  /-- The paragraph branch of the notes extractor. -/
  fromParas (body : List Char) : List Char :=
    let paragraphs := reMatchAll false rePara (body.length + 1) body
    match paragraphs with
    | [] => []
    | _ :: _ =>
      str "<ul>" ++
        (paragraphs.foldl (fun acc p =>
          let t := jsTrim (reReplaceAll false rePTag [] (p.length + 1) p)
          if !t.isEmpty && 5 < t.length then acc ++ str "<li>" ++ t ++ str "</li>"
          else acc) []) ++ str "</ul>"

/-- The three time types of extractTime. -/
inductive TimeType where
  | prep
  | cook
  | total

/-- The time pattern of a time type. -/
def timeRe : TimeType → RE
  | TimeType.prep => rePrepTime
  | TimeType.cook => reCookTime
  | TimeType.total => reTotalTime

/-- The per-type default time. -/
def timeDefault : TimeType → List Char
  | TimeType.prep => str "15 minutes"
  | TimeType.cook => str "30 minutes"
  | TimeType.total => str "45 minutes"

/-- extractTime (recipe-extraction.js lines 233-268): search the matching
time pattern over the whole lowercased document; on a match, format the
first number with the unit; otherwise fall back to the per-type default. -/
def extractTime (content : List Char) (timeType : TimeType) : List Char :=
  let lowerContent := lows content
  match reFind true (timeRe timeType) lowerContent with
  | some m =>
    let time := (capGet m 1).getD []
    let unit := lows ((capGet m 3).getD [])
    time ++ str " " ++ unit
  | none => timeDefault timeType

/-- extractYield (recipe-extraction.js lines 273-287). -/
def extractYield (content : List Char) : List Char :=
  let lowerContent := lows content
  match reFind true reYield lowerContent with
  | some m =>
    match capGet m 2 with
    | some u => (capGet m 1).getD [] ++ str "-" ++ u ++ str " servings"
    | none => (capGet m 1).getD [] ++ str " servings"
  | none => str "4 servings"

/-- Substring containment in the lowercased content (the pervasive
lowerContent.includes checks). -/
def inc (content : List Char) (s : String) : Bool :=
  containsSub (str s) content

/-- determineCategory (recipe-extraction.js lines 292-360). -/
def determineCategory (content keyword : List Char) : List Char :=
  let c := lows content
  let k := lows keyword
  if inc c "breakfast" || inc k "breakfast" || inc c "morning meal" then
    str "Breakfast"
  else if inc c "appetizer" || inc k "appetizer" || inc c "starter" ||
      inc c "hors d\x27oeuvre" then
    str "Appetizer"
  else if inc c "main course" || inc c "dinner" || inc c "entrée" || inc c "entree" then
    str "Main Course"
  else if inc c "dessert" || inc k "dessert" || inc c "sweet" || inc c "cake" ||
      inc c "cookie" || inc c "pie" then
    str "Dessert"
  else if inc c "side dish" || inc k "side" || inc c "accompaniment" then
    str "Side Dish"
  else if inc c "soup" || inc k "soup" || inc c "stew" || inc c "broth" then
    str "Soup"
  else if inc c "salad" || inc k "salad" then
    str "Salad"
  else if inc c "drink" || inc c "beverage" || inc c "cocktail" || inc c "smoothie" then
    str "Drink"
  else str "Main Course"

/-- determineMethod (recipe-extraction.js lines 365-401). -/
def determineMethod (content : List Char) : List Char :=
  let c := lows content
  if inc c "bake" || inc c "roast" || inc c "oven" then str "Baking"
  else if inc c "boil" || inc c "blanch" then str "Boiling"
  else if inc c "grill" || inc c "barbecue" || inc c "bbq" then str "Grilling"
  else if inc c "slow cooker" || inc c "crockpot" then str "Slow Cooking"
  else if inc c "pressure cooker" || inc c "instant pot" then str "Pressure Cooking"
  else if inc c "steam" then str "Steaming"
  else if inc c "fry" || inc c "sauté" || inc c "saute" then str "Frying"
  else if inc c "no cook" || inc c "no-cook" || inc c "raw" then str "No-Cook"
  else str "Cooking"

/-- The cuisine table of determineCuisine, in source order. -/
def cuisineTable : List (String × List String) :=
  [("Italian", ["italian", "pasta", "pizza", "risotto", "lasagna"]),
   ("Mexican", ["mexican", "taco", "burrito", "enchilada", "quesadilla", "salsa"]),
   ("Chinese", ["chinese", "stir fry", "stir-fry", "wok", "dim sum", "dumpling"]),
   ("Indian", ["indian", "curry", "masala", "tandoori", "naan"]),
   ("French", ["french", "ratatouille", "croissant", "soufflé", "souffle"]),
   ("Thai", ["thai", "pad thai", "curry", "tom yum"]),
   ("Japanese", ["japanese", "sushi", "teriyaki", "miso", "tempura"]),
   ("Mediterranean", ["mediterranean", "greek", "hummus", "falafel", "olive oil"]),
   ("American", ["american", "burger", "hot dog", "mac and cheese", "barbecue"])]

/-- determineCuisine (recipe-extraction.js lines 406-431). -/
def determineCuisine (content keyword : List Char) : List Char :=
  let c := lows content
  let k := lows keyword
  match cuisineTable.find? (fun e =>
      e.2.any (fun t => inc c t || inc k t)) with
  | some e => str e.1
  | none => str "American"

/-- The diet table of determineDiet, in source order. -/
def dietTable : List (String × List String) :=
  [("Vegan", ["vegan", "plant-based", "no animal products"]),
   ("Vegetarian", ["vegetarian", "no meat", "meatless"]),
   ("Gluten Free", ["gluten-free", "gluten free", "without gluten"]),
   ("Low Calorie", ["low calorie", "low-calorie", "diet", "light"]),
   ("Low Fat", ["low fat", "low-fat", "fat free"]),
   ("Low Salt", ["low salt", "low-salt", "low sodium"]),
   ("Diabetic", ["diabetic", "diabetes", "low sugar", "sugar-free"]),
   ("Kosher", ["kosher", "jewish dietary laws"]),
   ("Halal", ["halal", "islamic dietary laws"])]

/-- determineDiet (recipe-extraction.js lines 436-460). -/
def determineDiet (content : List Char) : List Char :=
  let c := lows content
  match dietTable.find? (fun e => e.2.any (fun t => inc c t)) with
  | some e => str e.1
  | none => []

/-- The common recipe keywords of extractKeywords, in source order. -/
def commonKeywords : List String :=
  ["homemade", "easy", "delicious", "quick", "healthy",
   "family", "dinner", "recipe", "best", "traditional"]

/-- extractKeywords (recipe-extraction.js lines 465-497). -/
def extractKeywords (content : List Char) : List Char :=
  let headers := reMatchAll false reHeader (content.length + 1) content
  let s1 := headers.foldl (fun acc header =>
    let t := jsTrim (reReplaceAll false reHTag [] (header.length + 1) header)
    if !t.isEmpty && !reTest true reHdrKw t then acc ++ str ", " ++ t else acc) []
  let c := lows content
  let s2 := commonKeywords.foldl (fun acc kw =>
    if containsSub (str kw) c && !containsSub (str kw) acc then
      acc ++ str ", " ++ str kw
    else acc) s1
  reStripAnchored false (RE.seq (RE.lit ',') (RE.star false RE.wsp)) s2

/-- The nutrition record; every field is a string, possibly empty. -/
structure Nutrition where
  servingSize : List Char
  calories : List Char
  sugar : List Char
  sodium : List Char
  fat : List Char
  saturatedFat : List Char
  unsaturatedFat : List Char
  transFat : List Char
  carbohydrates : List Char
  fiber : List Char
  protein : List Char
  cholesterol : List Char
deriving DecidableEq

/-- First capture of a pattern in a section, with a suffix appended. -/
def nutVal (re : RE) (suffix : String) (body : List Char) : Option (List Char) :=
  (reFind true re body).map (fun m => (capGet m 1).getD [] ++ str suffix)

/-- extractNutrition (recipe-extraction.js lines 502-558). -/
def extractNutrition (content : List Char) : Nutrition :=
  let base : Nutrition :=
    { servingSize := [], calories := [], sugar := [], sodium := [], fat := [],
      saturatedFat := [], unsaturatedFat := [], transFat := [],
      carbohydrates := [], fiber := [], protein := [], cholesterol := [] }
  let filled : Nutrition :=
    match sectionBody reNutHead content with
    | none => base
    | some body =>
      let sec := lows body
      { base with
        calories := (nutVal reCalories "" sec).getD base.calories
        fat := (nutVal (reNutEntry (reStr (str "fat")) reGrams) "g" sec).getD base.fat
        carbohydrates :=
          (nutVal (reNutEntry reCarbLabel reGrams) "g" sec).getD base.carbohydrates
        protein :=
          (nutVal (reNutEntry (reStr (str "protein")) reGrams) "g" sec).getD base.protein
        sugar := (nutVal (reNutEntry (reStr (str "sugar")) reGrams) "g" sec).getD base.sugar
        fiber := (nutVal (reNutEntry (reStr (str "fiber")) reGrams) "g" sec).getD base.fiber
        sodium := (nutVal (reNutEntry (reStr (str "sodium")) reMg) "mg" sec).getD base.sodium
        cholesterol :=
          (nutVal (reNutEntry (reStr (str "cholesterol")) reMg) "mg" sec).getD
            base.cholesterol }
  { filled with
    servingSize := if filled.servingSize.isEmpty then str "1 serving" else filled.servingSize
    calories := if filled.calories.isEmpty then str "250" else filled.calories
    fat := if filled.fat.isEmpty then str "10g" else filled.fat
    carbohydrates :=
      if filled.carbohydrates.isEmpty then str "30g" else filled.carbohydrates
    protein := if filled.protein.isEmpty then str "15g" else filled.protein }

/-- The details block of a recipe record. -/
structure RecipeDetails where
  prepTime : List Char
  cookTime : List Char
  totalTime : List Char
  yield : List Char
  category : List Char
  method : List Char
  cuisine : List Char
  diet : List Char
deriving DecidableEq

/-- The recipe record produced by the extractor; every field is a string
(or a record of strings), so a produced record has no missing field. -/
structure RecipeData where
  description : List Char
  ingredients : List Char
  instructions : List Char
  notes : List Char
  details : RecipeDetails
  keywords : List Char
  nutrition : Nutrition
deriving DecidableEq

/-- The fifteen recipe indicator terms, in source order. -/
def recipeIndicators : List String :=
  ["ingredients", "instructions", "preparation", "minutes",
   "cook time", "prep time", "servings", "recipe", "tablespoon",
   "teaspoon", "cup", "bake", "fry", "boil", "simmer"]

/-- The indicator count of the recipe gate: how many of the fifteen terms
occur (case-insensitively) as substrings of the content. -/
def indicatorCount (content : List Char) : Nat :=
  (recipeIndicators.filter (fun t => containsSub (str t) (lows content))).length

/-- extractRecipeData (recipe-extraction.js lines 11-53): the indicator
gate, then the component extractors. -/
def extractRecipeData (content keyword : List Char) : Option RecipeData :=
  if indicatorCount content < 3 then none
  else some
    { description := extractDescription content
      ingredients := extractIngredients content
      instructions := extractInstructions content
      notes := extractNotes content
      details :=
        { prepTime := extractTime content TimeType.prep
          cookTime := extractTime content TimeType.cook
          totalTime := extractTime content TimeType.total
          yield := extractYield content
          category := determineCategory content keyword
          method := determineMethod content
          cuisine := determineCuisine content keyword
          diet := determineDiet content }
      keywords := keyword ++ extractKeywords content
      nutrition := extractNutrition content }

/-! ### openai.js: prompt variables, word count, publication formatting -/

/-- A decimal digit character. -/
def digitChar (d : Nat) : Char := Char.ofNat (48 + d % 10)

/-- Decimal digits of a natural number (fueled helper). -/
def natStrF : Nat → Nat → List Char
  | 0, _ => []
  | f + 1, n => if n < 10 then [digitChar n] else natStrF f (n / 10) ++ [digitChar (n % 10)]

/-- JavaScript String(n) for a natural number. -/
def natStr (n : Nat) : List Char := natStrF (n + 1) n

/-- JavaScript String(n) for an integer. -/
def intStr (n : Int) : List Char :=
  if n < 0 then '-' :: natStr n.natAbs else natStr n.natAbs

/-- The backtick character (codepoint 96). -/
def bq : Char := Char.ofNat 96

/-- The dollar expansion of a replacement string for a pattern without
capture groups (ECMAScript GetSubstitution): dollar-dollar, dollar-amp and
the before/after-match escapes are expanded, every other dollar sequence
(including the numbered ones, as the pattern has no groups) stays literal. -/
def expandNoGroups (mat pre post : List Char) : List Char → List Char
  | [] => []
  | c :: rest =>
    if c == '$' then
      match rest with
      | [] => [c]
      | d :: rest2 =>
        if d == '$' then '$' :: expandNoGroups mat pre post rest2
        else if d == '&' then mat ++ expandNoGroups mat pre post rest2
        else if d == bq then pre ++ expandNoGroups mat pre post rest2
        else if d == sq then post ++ expandNoGroups mat pre post rest2
        else '$' :: d :: expandNoGroups mat pre post rest2
    else c :: expandNoGroups mat pre post rest

/-- result.replace(new RegExp(escaped literal pattern, "g"), repl): replace
every occurrence of the literal nonempty pattern, located in the input,
with the dollar-expanded replacement; seen accumulates the consumed input
(reversed) for the before-match expansion. -/
def replaceLitGo (pat repl : List Char) : Nat → List Char → List Char → List Char
  | 0, _, s => s
  | f + 1, seen, s =>
    if isPre pat s then
      expandNoGroups pat seen.reverse (s.drop pat.length) repl ++
        replaceLitGo pat repl f ((s.take pat.length).reverse ++ seen) (s.drop pat.length)
    else
      match s with
      | [] => []
      | c :: rest => c :: replaceLitGo pat repl f (c :: seen) rest

/-- Global literal replacement (the pattern is nonempty in every use). -/
def replaceLit (pat repl s : List Char) : List Char :=
  if pat.isEmpty then s else replaceLitGo pat repl (s.length + 1) [] s

/-- applyPromptVariables (openai.js lines 467-473): replace the keyword
token and then the minWords token, each globally; the replacement value
goes through the dollar expansion of String.replace. -/
def applyPromptVariables (template kw : List Char) (minWords : Nat) : List Char :=
  replaceLit (str "\x7bminWords\x7d") (natStr minWords)
    (replaceLit (str "\x7bkeyword\x7d") kw template)

/-- countWords (openai.js lines 480-482): split on whitespace runs and
count the nonempty pieces. -/
def countWords (text : List Char) : Nat :=
  ((reSplit false (rePlus RE.wsp) (text.length + 1) text).filter
    (fun w => w.length > 0)).length

/-- A JavaScript value reaching the publication formatter. -/
inductive JSVal where
  | vstr (s : List Char)
  | vnum (n : Int)
  | vbool (b : Bool)
  | vnull
  | vundef

/-- JavaScript truthiness. -/
def jsTruthy : JSVal → Bool
  | JSVal.vstr s => !s.isEmpty
  | JSVal.vnum n => n != 0
  | JSVal.vbool b => b
  | JSVal.vnull => false
  | JSVal.vundef => false

/-- JavaScript String(v). -/
def jsToString : JSVal → List Char
  | JSVal.vstr s => s
  | JSVal.vnum n => intStr n
  | JSVal.vbool b => if b then str "true" else str "false"
  | JSVal.vnull => str "null"
  | JSVal.vundef => str "undefined"

/-- The tag-detection pattern of formatContentForWordPress. -/
def reHtmlTag : RE :=
  reSeqL [RE.lit '<', reOpt (RE.lit '/'), RE.cls false [('a', 'z')],
    RE.star false RE.wild, RE.lit '>']

/-- An element pattern with a lazily captured single-line body. -/
def reElem (tag : String) (body : RE) : RE :=
  reSeqL [RE.lit '<', reStr (str tag), RE.lit '>', RE.grp 1 body,
    reStr (str "</"), reStr (str tag), RE.lit '>']

/-- Split on an exact separator string (String.split with a string
argument; the separators of the source are nonempty). -/
def splitLit (sep : List Char) : Nat → List Char → List (List Char)
  | 0, s => [s]
  | f + 1, s =>
    if sep.isEmpty then [s]
    else if isPre sep s then [] :: splitLit sep f (s.drop sep.length)
    else
      match s with
      | [] => [[]]
      | c :: rest =>
        match splitLit sep f rest with
        | [] => [[c]]
        | p :: ps => (c :: p) :: ps

/-- The paragraph classifier of the no-tags branch of
formatContentForWordPress (wordpress.js lines 757-769): a single or double
hash prefix yields a level-2 heading block, a triple hash prefix a level-3
heading block, anything else a paragraph block. -/
def classifyPara (para : List Char) : List Char :=
  if isPre (str "# ") para then
    str "<!\x2d\x2d wp:heading \x2d\x2d><h2>" ++ para.drop 2 ++
      str "</h2><!\x2d\x2d /wp:heading \x2d\x2d>"
  else if isPre (str "## ") para then
    str "<!\x2d\x2d wp:heading \x2d\x2d><h2>" ++ para.drop 3 ++
      str "</h2><!\x2d\x2d /wp:heading \x2d\x2d>"
  else if isPre (str "### ") para then
    str "<!\x2d\x2d wp:heading \x7b\"level\":3\x7d \x2d\x2d><h3>" ++ para.drop 4 ++
      str "</h3><!\x2d\x2d /wp:heading \x2d\x2d>"
  else
    str "<!\x2d\x2d wp:paragraph \x2d\x2d><p>" ++ para ++
      str "</p><!\x2d\x2d /wp:paragraph \x2d\x2d>"

/-- The Gutenberg wrapping of the has-tags branch: the five chained global
replaces of the source, in order. -/
def wrapHtmlBlocks (content : List Char) : List Char :=
  let rep (re : RE) (tpl : List Char) (s : List Char) : List Char :=
    reReplaceAll true re tpl (s.length + 1) s
  rep (reSeqL [reStr (str "<ol>"), RE.grp 1 (RE.star true RE.wild), reStr (str "</ol>")])
    (str "<!\x2d\x2d wp:list \x7b\"ordered\":true\x7d \x2d\x2d><ol>$1</ol><!\x2d\x2d /wp:list \x2d\x2d>")
    (rep (reSeqL [reStr (str "<ul>"), RE.grp 1 (RE.star true RE.wild), reStr (str "</ul>")])
      (str "<!\x2d\x2d wp:list \x2d\x2d><ul>$1</ul><!\x2d\x2d /wp:list \x2d\x2d>")
      (rep (reElem "p" (RE.star true RE.dot))
        (str "<!\x2d\x2d wp:paragraph \x2d\x2d><p>$1</p><!\x2d\x2d /wp:paragraph \x2d\x2d>")
        (rep (reElem "h3" (RE.star true RE.dot))
          (str "<!\x2d\x2d wp:heading \x7b\"level\":3\x7d \x2d\x2d><h3>$1</h3><!\x2d\x2d /wp:heading \x2d\x2d>")
          (rep (reElem "h2" (RE.star true RE.dot))
            (str "<!\x2d\x2d wp:heading \x2d\x2d><h2>$1</h2><!\x2d\x2d /wp:heading \x2d\x2d>")
            content))))

/-- The formatting body shared by every input after coercion: content with
an HTML tag goes through the five Gutenberg wrapping replaces; content
without one is treated as pseudo-markdown paragraphs. -/
def formatBody (content : List Char) : List Char :=
  if reTest true reHtmlTag content then wrapHtmlBlocks content
  else
    List.intercalate (str "\n\n")
      ((((splitLit (str "\n\n") (content.length + 1) content).map jsTrim).filter
        (fun p => !p.isEmpty)).map classifyPara)

/-- The defensive coercion at the top of formatContentForWordPress: a
non-string or falsy input is replaced by String(content or empty). -/
def coerceContent : JSVal → List Char
  | JSVal.vstr (c :: cs) => c :: cs
  | w => if jsTruthy w then jsToString w else []

/-- formatContentForWordPress (wordpress.js lines 732-776).  The try/catch
of the source cannot fire in this total model, so the catch arm (returning
the stringified input unchanged) is unreachable. -/
def formatContentForWordPress (v : JSVal) : List Char :=
  formatBody (coerceContent v)

/-! ### openai.js: article generation -/

/-- Prompt settings (the promptSettings object).  JavaScript truthiness
guards every string field, so a falsy (absent or empty) string is modelled
as none. -/
structure PromptSettings where
  useMultiPartGeneration : Bool := false
  mainPrompt : Option (List Char) := none
  part1Prompt : Option (List Char) := none
  part2Prompt : Option (List Char) := none
  part3Prompt : Option (List Char) := none
  toneVoice : Option (List Char) := none
  seoGuidelines : Option (List Char) := none
  thingsToAvoid : Option (List Char) := none
  useArticleFormat : Bool := false
  articleFormat : Option (List Char) := none
  enableRecipeDetection : Bool := false
  recipeFormatPrompt : Option (List Char) := none

/-- The article returned by the generator. -/
structure Article where
  title : List Char
  content : List Char
  wordCount : Nat
  recipeData : Option RecipeData
deriving DecidableEq

/-- A generation failure: a rejected LLM call carrying the underlying
message, or the TypeError of the avoid-term normalization. -/
inductive GenErr where
  | llm (e : List Char)
  | internalError
deriving DecidableEq

/-- Decidable equality of results of fallible computations. -/
instance {e a : Type} [DecidableEq e] [DecidableEq a] : DecidableEq (Except e a) :=
  fun x y =>
    match x, y with
    | Except.error u, Except.error v =>
      if h : u = v then Decidable.isTrue (by rw [h])
      else Decidable.isFalse (by intro hh; cases hh; exact h rfl)
    | Except.ok u, Except.ok v =>
      if h : u = v then Decidable.isTrue (by rw [h])
      else Decidable.isFalse (by intro hh; cases hh; exact h rfl)
    | Except.error _, Except.ok _ => Decidable.isFalse (by intro hh; cases hh)
    | Except.ok _, Except.error _ => Decidable.isFalse (by intro hh; cases hh)

/-- The external LLM service: the n-th chat-completion call, given its
system and user messages, either fails with a message or returns content. -/
abbrev Oracle := Nat → List Char → List Char → Except (List Char) (List Char)

/-- The base system persona string. -/
def baseSystemMessage : List Char :=
  str "You are a professional content writer specializing in SEO-optimized articles that follow WordPress formatting standards."

/-- The system message with the optional tone directive appended. -/
def systemMessageWith (toneVoice : Option (List Char)) : List Char :=
  match toneVoice with
  | some tv => baseSystemMessage ++ str "\n\nWrite in the following tone/voice: " ++ tv
  | none => baseSystemMessage

/-- The emphatic things-to-avoid directive appended to content prompts. -/
def avoidDirective (av : List Char) : List Char :=
  str "\n\nIMPORTANT: DO NOT mention, include, or reference ANY of the following in your content. This is a strict requirement. DO NOT use ANY of these terms or concepts:\n" ++ av

/-- The recipe-signal pattern matched against the lowercased keyword. -/
def recipeSignalRe : RE :=
  reAlts [reStr (str "recipe"), reStr (str "dish"), reStr (str "cook"),
    reStr (str "bake"), reStr (str "food"), reStr (str "meal"),
    reStr (str "breakfast"), reStr (str "lunch"), reStr (str "dinner"),
    reStr (str "dessert"), reStr (str "appetizer"), reStr (str "snack")]

/-- The default recipe-format instructions (with their leading separator). -/
def recipeFormatDefault : List Char :=
  str "\n\nRECIPE FORMAT INSTRUCTIONS:\nPlease format this as a recipe article with the following sections:\n1. A brief introduction about the dish\n2. A \"Ingredients\" section with a clear, bulleted list (<ul><li>) of all ingredients with quantities\n3. A \"Instructions\" section with numbered steps (<ol><li>) for preparation\n4. Include preparation time, cooking time, and servings information clearly labeled (e.g., \"Prep Time: 15 minutes\")\n5. Add a \"Tips and Notes\" section with helpful advice for making this recipe\n6. If relevant, include nutrition information"

/-- The recipe-format instructions of a call ([] when recipe detection is
off or the keyword carries no recipe signal). -/
def recipeInstrOf (p : PromptSettings) (kw : List Char) : List Char :=
  if p.enableRecipeDetection && reTest false recipeSignalRe (lows kw) then
    match p.recipeFormatPrompt with
    | some rf => str "\n\nRECIPE FORMAT INSTRUCTIONS:\n" ++ rf
    | none => recipeFormatDefault
  else []

/-- The article-format instructions ([] when disabled or empty). -/
def articleInstrOf (p : PromptSettings) : List Char :=
  if p.useArticleFormat then
    match p.articleFormat with
    | some af =>
      str "\n\nARTICLE FORMAT INSTRUCTIONS:\nFollow this specific structure and format for the article:\n" ++ af
    | none => []
  else []

/-- The title prompt, with the title-scoped avoid directive when present. -/
def titlePromptOf (kw : List Char) (av : Option (List Char)) : List Char :=
  let base := str "Create an engaging, SEO-friendly title for an article about \"" ++ kw ++
    str "\" that will attract clicks and is optimized for SEO."
  match av with
  | some a => base ++ str "\n\nIMPORTANT: DO NOT use ANY of the following words in the title: " ++ a
  | none => base

/-- The fixed system message of the title calls. -/
def titleSystemMessage : List Char :=
  str "Generate a compelling, SEO-friendly title for this article."

/-- Suppress prohibited terms when an avoid list is present. -/
def suppressWith (av : Option (List Char)) (text : List Char) : Option (List Char) :=
  match av with
  | some a => removeProhibitedContent text a
  | none => some text

/-- The default single-pass content prompt (a template literal interpolating
the keyword and word count directly). -/
def defaultContentPrompt (kw : List Char) (mw : Nat) : List Char :=
  str "Write a comprehensive, engaging, and SEO-optimized article about \"" ++ kw ++
  str "\" that follows these guidelines:\n      \n      1. The article should be at least " ++
  natStr mw ++
  str " words\n      2. Use proper WordPress formatting with H2 and H3 headings (no H1 as that\x27s for the title)\n      3. Include a compelling introduction that hooks the reader\n      4. Break down the topic into logical sections with descriptive headings\n      5. Include practical tips, examples, and actionable advice\n      6. Add a conclusion that summarizes key points\n      7. Optimize for SEO with natural keyword usage\n      8. Make the content valuable and informative for the reader\n      \n      Format the article with proper HTML tags:\n      - Use <h2> for main section headings\n      - Use <h3> for subsection headings\n      - Use <p> for paragraphs\n      - Use <ul> and <li> for bullet points where appropriate\n      - Use <ol> and <li> for numbered lists where appropriate\n      \n      Write in a conversational, authoritative tone that engages the reader."

/-- The default introduction template of multi-part generation. -/
def part1Default : List Char :=
  str "Write an engaging introduction for an article about \x7bkeyword\x7d. The introduction should hook the reader, explain why the topic is important, and preview what the article will cover. Use approximately \x7bminWords\x7d words."

/-- The default body template of multi-part generation. -/
def part2Default : List Char :=
  str "Write the main body content for an article about \x7bkeyword\x7d. This should include detailed information, breakdown of the topic into logical sections with appropriate H2 and H3 headings, practical tips, examples, and actionable advice. Use approximately \x7bminWords\x7d words."

/-- The default conclusion template of multi-part generation. -/
def part3Default : List Char :=
  str "Write a conclusion for an article about \x7bkeyword\x7d. The conclusion should summarize the key points, provide final thoughts, and possibly include a call to action. Use approximately \x7bminWords\x7d words."

/-- The prompt of one article part (openai.js lines 404-438): the template
with substituted variables, then the SEO, avoid and format instructions,
the last reworded by which part the prompt text says it is. -/
def partPromptOf (kw : List Char) (wordCount : Nat) (tpl : List Char)
    (p : PromptSettings) (formatInstr : List Char) : List Char :=
  let prompt := applyPromptVariables tpl kw wordCount
  let prompt :=
    match p.seoGuidelines with
    | some g => prompt ++ str "\n\nFollow these additional SEO guidelines:\n" ++ g
    | none => prompt
  let prompt :=
    match p.thingsToAvoid with
    | some av => prompt ++ avoidDirective av
    | none => prompt
  if formatInstr.isEmpty then prompt
  else if containsSub (str "introduction for an article") prompt then
    prompt ++ formatInstr ++
      str "\n\nFocus on writing the introduction part while keeping the overall article format in mind."
  else if containsSub (str "main body content") prompt then
    prompt ++ formatInstr ++
      str "\n\nEnsure you follow this structure while creating the main body content."
  else if containsSub (str "conclusion for an article") prompt then
    prompt ++ formatInstr ++
      str "\n\nFocus on writing the conclusion part according to this format."
  else prompt ++ formatInstr

/-- generateArticlePart (openai.js lines 403-459): build the part prompt,
make one LLM call (call index k), and suppress the avoid terms in its
output.  Returns the result together with the next call index. -/
def generateArticlePart (o : Oracle) (k : Nat) (kw : List Char) (wordCount : Nat)
    (tpl sysMsg : List Char) (p : PromptSettings) (formatInstr : List Char) :
    Except GenErr (List Char) × Nat :=
  match o k sysMsg (partPromptOf kw wordCount tpl p formatInstr) with
  | Except.error e => (Except.error (GenErr.llm e), k + 1)
  | Except.ok content =>
    match suppressWith p.thingsToAvoid content with
    | some c => (Except.ok c, k + 1)
    | none => (Except.error GenErr.internalError, k + 1)

/-- generateMultiPartArticle (openai.js lines 261-389): three sequential
part calls (the word budget is split 20/60/20, floored; the source computes
the shares with float multiplication, modelled here as exact rationals),
then the combined suppression, the title call, the word count and the
recipe extraction.  A failing call aborts immediately. -/
def generateMultiPartArticle (o : Oracle) (kw : List Char) (minWords : Nat)
    (p : PromptSettings) : Except GenErr Article × Nat :=
  match generateArticlePart o 0 kw (minWords * 2 / 10) (p.part1Prompt.getD part1Default)
      (systemMessageWith p.toneVoice) p (articleInstrOf p ++ recipeInstrOf p kw) with
  | (Except.error e, n) => (Except.error e, n)
  | (Except.ok intro, n1) =>
    match generateArticlePart o n1 kw (minWords * 6 / 10) (p.part2Prompt.getD part2Default)
        (systemMessageWith p.toneVoice) p (articleInstrOf p ++ recipeInstrOf p kw) with
    | (Except.error e, n) => (Except.error e, n)
    | (Except.ok body, n2) =>
      match generateArticlePart o n2 kw (minWords * 2 / 10)
          (p.part3Prompt.getD part3Default) (systemMessageWith p.toneVoice) p
          (articleInstrOf p ++ recipeInstrOf p kw) with
      | (Except.error e, n) => (Except.error e, n)
      | (Except.ok concl, n3) =>
        match suppressWith p.thingsToAvoid
            (intro ++ str "\n\n" ++ body ++ str "\n\n" ++ concl) with
        | none => (Except.error GenErr.internalError, n3)
        | some combined =>
          match o n3 titleSystemMessage (titlePromptOf kw p.thingsToAvoid) with
          | Except.error e => (Except.error (GenErr.llm e), n3 + 1)
          | Except.ok rawTitle =>
            match suppressWith p.thingsToAvoid (rawTitle.filter (fun c => c != '"')) with
            | none => (Except.error GenErr.internalError, n3 + 1)
            | some title =>
              (Except.ok
                { title := title
                  content := combined
                  wordCount := countWords combined
                  recipeData :=
                    if p.enableRecipeDetection then extractRecipeData combined kw
                    else none },
                n3 + 1)

/-- The single-pass content prompt (openai.js lines 30-99): the custom or
default template, then the SEO, avoid, article-format and recipe-format
appendices, in source order. -/
def singleContentPromptOf (kw : List Char) (minWords : Nat)
    (ps : Option PromptSettings) : List Char :=
  let contentPrompt :=
    match ps with
    | some p =>
      match p.mainPrompt with
      | some mp => applyPromptVariables mp kw minWords
      | none => defaultContentPrompt kw minWords
    | none => defaultContentPrompt kw minWords
  let contentPrompt :=
    match ps.bind (fun p => p.seoGuidelines) with
    | some g => contentPrompt ++ str "\n\nFollow these additional SEO guidelines:\n" ++ g
    | none => contentPrompt
  let contentPrompt :=
    match ps.bind (fun p => p.thingsToAvoid) with
    | some a => contentPrompt ++ avoidDirective a
    | none => contentPrompt
  match ps with
  | some p => contentPrompt ++ articleInstrOf p ++ recipeInstrOf p kw
  | none => contentPrompt

/-- The single-pass branch of generateArticleContent (openai.js lines
30-164): one content call and one title call. -/
def singlePassGenerate (o : Oracle) (kw : List Char) (minWords : Nat)
    (ps : Option PromptSettings) : Except GenErr Article × Nat :=
  match o 0 (systemMessageWith (ps.bind (fun p => p.toneVoice)))
      (singleContentPromptOf kw minWords ps) with
  | Except.error e => (Except.error (GenErr.llm e), 1)
  | Except.ok rawContent =>
    match suppressWith (ps.bind (fun p => p.thingsToAvoid)) rawContent with
    | none => (Except.error GenErr.internalError, 1)
    | some content =>
      match o 1 titleSystemMessage
          (titlePromptOf kw (ps.bind (fun p => p.thingsToAvoid))) with
      | Except.error e => (Except.error (GenErr.llm e), 2)
      | Except.ok rawTitle =>
        match suppressWith (ps.bind (fun p => p.thingsToAvoid))
            (rawTitle.filter (fun c => c != '"')) with
        | none => (Except.error GenErr.internalError, 2)
        | some title =>
          (Except.ok
            { title := title
              content := content
              wordCount := countWords content
              recipeData :=
                match ps with
                | some p =>
                  if p.enableRecipeDetection then extractRecipeData content kw else none
                | none => none },
            2)

/-- generateArticleContent (openai.js lines 16-169): multi-part generation
when enabled, the single pass otherwise; the catch block of the source only
logs and rethrows, so every failure propagates to the caller unchanged. -/
def generateArticleContent (o : Oracle) (kw : List Char) (minWords : Nat)
    (ps : Option PromptSettings) : Except GenErr Article × Nat :=
  match ps with
  | some p =>
    if p.useMultiPartGeneration then generateMultiPartArticle o kw minWords p
    else singlePassGenerate o kw minWords ps
  | none => singlePassGenerate o kw minWords ps

/-! ### Claim-side definitions

Definitions following the words of the specification, to be compared with
the source-level definitions above. -/

/-- Claim-side: the bare type word of a time pattern, as the specification
spells it. -/
def claimTimeStem : TimeType → List Char
  | TimeType.prep => str "prep"
  | TimeType.cook => str "cook"
  | TimeType.total => str "total"

/-- Claim-side: the time pattern as the specification states it —
type\s*time:?\s*(\d+)(?:\s+to\s+(\d+))?\s+(minutes|hours) — with optional
whitespace between the type word and time and no longer type spellings. -/
def claimTimeRe (ty : TimeType) : RE :=
  reSeqL [reStr (claimTimeStem ty), RE.star false RE.wsp, reTimeCore]

/-- Claim-side: verbatim literal replace-all (the specification's "literal
substring replace-all" with the value inserted verbatim). -/
def verbatimReplaceAll (pat repl : List Char) : Nat → List Char → List Char
  | 0, s => s
  | f + 1, s =>
    if pat.isEmpty then s
    else if isPre pat s then repl ++ verbatimReplaceAll pat repl f (s.drop pat.length)
    else
      match s with
      | [] => []
      | c :: rest => c :: verbatimReplaceAll pat repl f rest

/-- Claim-side: prompt-variable substitution as the specification states
it — both tokens replaced globally, values inserted verbatim. -/
def verbatimSubst (template kw : List Char) (minWords : Nat) : List Char :=
  let r1 := verbatimReplaceAll (str "\x7bkeyword\x7d") kw (template.length + 1) template
  verbatimReplaceAll (str "\x7bminWords\x7d") (natStr minWords) (r1.length + 1) r1

/-- Scan context after passing a block of characters. -/
def ctxO (q : Option Char) (A : List Char) : Option Char :=
  match A.getLast? with
  | some a => some a
  | none => q

/-- Conditions under which a term interacts cleanly with the replacement
text "[alternative]": nonempty, already lowercase (as every parsed avoid
term is), bracket-free, and not the word "alternative" itself. -/
def termOK (t : List Char) : Bool :=
  decide (t ≠ []) && t.all (fun c => lowc c == c) &&
    decide ('[' ∉ t) && decide (']' ∉ t) && decide (t ≠ str "alternative")

end WP

namespace WP

/-! ## Theorems -/

/-- Two appends differ when their left parts differ at a common index. -/
theorem ne_append_of_get_ne (A B x y : List Char) (i : Nat) (hA : i < A.length)
    (hB : i < B.length) (hne : A.get ⟨i, hA⟩ ≠ B.get ⟨i, hB⟩) :
    A ++ x ≠ B ++ y := by
  intro h
  apply hne
  have h1 : (A ++ x)[i]? = some (A.get ⟨i, hA⟩) := by
    rw [List.getElem?_append, if_pos hA, List.getElem?_eq_getElem hA]
    rfl
  have h2 : (B ++ y)[i]? = some (B.get ⟨i, hB⟩) := by
    rw [List.getElem?_append, if_pos hB, List.getElem?_eq_getElem hB]
    rfl
  rw [h] at h1
  rw [h1] at h2
  exact Option.some.inj h2

/-- C1: extractRecipeData returns null exactly when fewer than three of the
fifteen indicator terms occur case-insensitively in the content, and with at
least three indicators it returns a complete RecipeData record (every field
of the record type is a total string, so no field can be missing). -/
theorem extractRecipeData_gate :
    (∀ content keyword : List Char,
      extractRecipeData content keyword = none ↔ indicatorCount content < 3) ∧
    (∀ content keyword : List Char, 3 ≤ indicatorCount content →
      ∃ r : RecipeData, extractRecipeData content keyword = some r) := by
  constructor
  · intro c k
    unfold extractRecipeData
    split
    · simpa
    · simp
      omega
  · intro c k h
    unfold extractRecipeData
    rw [if_neg (by omega)]
    exact ⟨_, rfl⟩

/-- Witness for the second half of the gate theorem at a concrete content
with four indicators present. -/
theorem extractRecipeData_gate_witness :
    ∃ r : RecipeData,
      extractRecipeData (str "recipe minutes cup servings") (str "kw") = some r :=
  extractRecipeData_gate.2 (str "recipe minutes cup servings") (str "kw") (by decide)

/-- C8 counterexample: on "preparation time: 10 minutes" the pattern stated
by the specification (prep\s*time...) does not match, yet the extracted prep
time is "10 minutes", not the claimed default "15 minutes" — the source
pattern spells the type word as prep(?:aration)? and requires whitespace
before "time". -/
theorem extractTime_claim_counterexample :
    reFind true (claimTimeRe TimeType.prep)
        (lows (str "preparation time: 10 minutes")) = none ∧
    extractTime (str "preparation time: 10 minutes") TimeType.prep = str "10 minutes" ∧
    str "10 minutes" ≠ timeDefault TimeType.prep := by
  refine ⟨by decide, by decide, by decide⟩

/-- C8 (amended): for each time type the extractor searches the source's
pattern — type word with its optional longer spelling, mandatory whitespace,
then time:?\s*(\d+)(?:\s+to\s+(\d+))?\s+(minutes|hours) — case-insensitively
over the whole lowercased document (not scoped to a section), and exactly on
a miss the Details field is the fixed per-type default (15/30/45 minutes). -/
theorem extractTime_characterization :
    ∀ (content : List Char) (ty : TimeType),
      (reFind true (timeRe ty) (lows content) = none →
        extractTime content ty = timeDefault ty) ∧
      (∀ m : MatchRes, reFind true (timeRe ty) (lows content) = some m →
        extractTime content ty =
          (capGet m 1).getD [] ++ str " " ++ lows ((capGet m 3).getD [])) := by
  intro c ty
  constructor
  · intro h
    simp only [extractTime, h]
  · intro m h
    simp only [extractTime, h]

/-- Witness for both directions of the amended time characterization: a
content without the pattern falls back to the default, and a matching
content formats the captured number and unit. -/
theorem extractTime_characterization_witness :
    extractTime (str "no durations here") TimeType.prep = timeDefault TimeType.prep ∧
    extractTime (str "cook time: 25 minutes") TimeType.cook =
      (capGet ⟨[], str "cook time: 25 minutes", [], [(3, str "minutes"), (1, str "25")]⟩
        1).getD [] ++ str " " ++
      lows ((capGet ⟨[], str "cook time: 25 minutes", [],
        [(3, str "minutes"), (1, str "25")]⟩ 3).getD []) :=
  ⟨(extractTime_characterization (str "no durations here") TimeType.prep).1 (by decide),
   (extractTime_characterization (str "cook time: 25 minutes") TimeType.cook).2
     ⟨[], str "cook time: 25 minutes", [], [(3, str "minutes"), (1, str "25")]⟩ (by decide)⟩

/-- C9: when the time pattern matches with a "to" range, the extracted
Details value is built from the lower bound (capture 1) and the unit
(capture 3) only — the captured upper bound does not appear in the result. -/
theorem extractTime_range_discards_upper :
    ∀ (content : List Char) (ty : TimeType) (m : MatchRes) (hi : List Char),
      reFind true (timeRe ty) (lows content) = some m →
      capGet m 2 = some hi →
      extractTime content ty =
        (capGet m 1).getD [] ++ str " " ++ lows ((capGet m 3).getD []) := by
  intro c ty m hi h _
  simp only [extractTime, h]

/-- Witness: "prep time: 10 to 15 minutes" extracts "10 minutes", the upper
bound 15 being discarded. -/
theorem extractTime_range_discards_upper_witness :
    extractTime (str "prep time: 10 to 15 minutes") TimeType.prep =
      (capGet ⟨[], str "prep time: 10 to 15 minutes", [],
        [(3, str "minutes"), (2, str "15"), (1, str "10")]⟩ 1).getD [] ++ str " " ++
      lows ((capGet ⟨[], str "prep time: 10 to 15 minutes", [],
        [(3, str "minutes"), (2, str "15"), (1, str "10")]⟩ 3).getD []) :=
  extractTime_range_discards_upper (str "prep time: 10 to 15 minutes") TimeType.prep
    ⟨[], str "prep time: 10 to 15 minutes", [],
      [(3, str "minutes"), (2, str "15"), (1, str "10")]⟩
    (str "15") (by decide) (by decide)

/-- C10: in the pseudo-markdown branch, a "# " and a "## " prefix both
produce a level-2 heading block (with two or three characters stripped), a
level-3 heading block arises exactly from a "### " prefix, and a paragraph
with none of the three prefixes becomes a paragraph block. -/
theorem classifyPara_heading_levels :
    ∀ p : List Char, p ≠ [] →
      (isPre (str "# ") p = true →
        classifyPara p = str "<!\x2d\x2d wp:heading \x2d\x2d><h2>" ++ p.drop 2 ++
          str "</h2><!\x2d\x2d /wp:heading \x2d\x2d>") ∧
      (isPre (str "## ") p = true →
        classifyPara p = str "<!\x2d\x2d wp:heading \x2d\x2d><h2>" ++ p.drop 3 ++
          str "</h2><!\x2d\x2d /wp:heading \x2d\x2d>") ∧
      ((∃ s, classifyPara p =
          str "<!\x2d\x2d wp:heading \x7b\"level\":3\x7d \x2d\x2d><h3>" ++ s ++
            str "</h3><!\x2d\x2d /wp:heading \x2d\x2d>") ↔
        isPre (str "### ") p = true) ∧
      (isPre (str "# ") p = false → isPre (str "## ") p = false →
        isPre (str "### ") p = false →
        classifyPara p = str "<!\x2d\x2d wp:paragraph \x2d\x2d><p>" ++ p ++
          str "</p><!\x2d\x2d /wp:paragraph \x2d\x2d>") := by
  intro p _
  refine ⟨?_, ?_, ⟨?_, ?_⟩, ?_⟩
  · intro h1
    unfold classifyPara
    rw [h1]
    simp
  · intro h2
    have h1 : isPre (str "# ") p = false := by
      match p, h2 with
      | [c], h2 => simp [str, isPre] at h2
      | c :: d :: rest2, h2 =>
        simp only [str, isPre, Bool.and_eq_true, beq_iff_eq] at h2
        obtain ⟨hc, hd, _⟩ := h2
        subst hc
        subst hd
        simp [str, isPre]
    unfold classifyPara
    rw [h1, h2]
    simp
  · rintro ⟨s, hs⟩
    by_contra h3
    have h3f : isPre (str "### ") p = false := by
      cases hq : isPre (str "### ") p
      · rfl
      · exact absurd hq h3
    unfold classifyPara at hs
    rw [h3f] at hs
    cases hA : isPre (str "# ") p
    · rw [hA] at hs
      cases hB : isPre (str "## ") p
      · rw [hB] at hs
        rw [if_neg Bool.false_ne_true, if_neg Bool.false_ne_true,
          if_neg Bool.false_ne_true] at hs
        rw [List.append_assoc, List.append_assoc] at hs
        exact ne_append_of_get_ne (str "<!\x2d\x2d wp:paragraph \x2d\x2d><p>")
          (str "<!\x2d\x2d wp:heading \x7b\"level\":3\x7d \x2d\x2d><h3>") _ _ 8
          (by decide) (by decide) (by decide) hs
      · rw [hB] at hs
        rw [if_neg Bool.false_ne_true, if_pos rfl] at hs
        rw [List.append_assoc, List.append_assoc] at hs
        exact ne_append_of_get_ne (str "<!\x2d\x2d wp:heading \x2d\x2d><h2>")
          (str "<!\x2d\x2d wp:heading \x7b\"level\":3\x7d \x2d\x2d><h3>") _ _ 16
          (by decide) (by decide) (by decide) hs
    · rw [hA] at hs
      rw [if_pos rfl] at hs
      rw [List.append_assoc, List.append_assoc] at hs
      exact ne_append_of_get_ne (str "<!\x2d\x2d wp:heading \x2d\x2d><h2>")
        (str "<!\x2d\x2d wp:heading \x7b\"level\":3\x7d \x2d\x2d><h3>") _ _ 16
        (by decide) (by decide) (by decide) hs
  · intro h3
    have h1 : isPre (str "# ") p = false := by
      match p, h3 with
      | [c], h3 => simp [str, isPre] at h3
      | c :: d :: rest2, h3 =>
        simp only [str, isPre, Bool.and_eq_true, beq_iff_eq] at h3
        obtain ⟨hc, hd, _⟩ := h3
        subst hc
        subst hd
        simp [str, isPre]
    have h2 : isPre (str "## ") p = false := by
      match p, h3 with
      | [c], h3 => simp [str, isPre] at h3
      | [c, d], h3 => simp [str, isPre] at h3
      | c :: d :: e :: rest3, h3 =>
        simp only [str, isPre, Bool.and_eq_true, beq_iff_eq] at h3
        obtain ⟨hc, hd, he, _⟩ := h3
        subst hc
        subst hd
        subst he
        simp [str, isPre]
    unfold classifyPara
    rw [h1, h2, h3]
    exact ⟨p.drop 4, by simp⟩
  · intro h1 h2 h3
    unfold classifyPara
    rw [h1, h2, h3]
    simp

/-- Witness for the paragraph classifier at the four prefix shapes. -/
theorem classifyPara_heading_levels_witness :
    classifyPara (str "# A") = str "<!\x2d\x2d wp:heading \x2d\x2d><h2>" ++
      (str "# A").drop 2 ++ str "</h2><!\x2d\x2d /wp:heading \x2d\x2d>" ∧
    classifyPara (str "## B") = str "<!\x2d\x2d wp:heading \x2d\x2d><h2>" ++
      (str "## B").drop 3 ++ str "</h2><!\x2d\x2d /wp:heading \x2d\x2d>" ∧
    (∃ s, classifyPara (str "### C") =
      str "<!\x2d\x2d wp:heading \x7b\"level\":3\x7d \x2d\x2d><h3>" ++ s ++
        str "</h3><!\x2d\x2d /wp:heading \x2d\x2d>") ∧
    classifyPara (str "plain") = str "<!\x2d\x2d wp:paragraph \x2d\x2d><p>" ++
      str "plain" ++ str "</p><!\x2d\x2d /wp:paragraph \x2d\x2d>" :=
  ⟨(classifyPara_heading_levels (str "# A") (by decide)).1 (by decide),
   (classifyPara_heading_levels (str "## B") (by decide)).2.1 (by decide),
   (classifyPara_heading_levels (str "### C") (by decide)).2.2.1.2 (by decide),
   (classifyPara_heading_levels (str "plain") (by decide)).2.2.2 (by decide) (by decide)
     (by decide)⟩


/-- A natural number prints as at least one digit. -/
theorem natStr_ne_nil (n : Nat) : natStr n ≠ [] := by
  unfold natStr natStrF
  split
  · simp
  · simp

/-- An integer prints as at least one character. -/
theorem intStr_ne_nil (n : Int) : intStr n ≠ [] := by
  unfold intStr
  split
  · simp
  · exact natStr_ne_nil _

/-- C6 counterexample: the formatter does not return "42" on the input 42;
the stringified number goes through the pseudo-markdown branch and comes
back wrapped as a paragraph block. -/
theorem formatContent_42_counterexample :
    formatContentForWordPress (JSVal.vnum 42) =
      str "<!\x2d\x2d wp:paragraph \x2d\x2d><p>42</p><!\x2d\x2d /wp:paragraph \x2d\x2d>" ∧
    formatContentForWordPress (JSVal.vnum 42) ≠ str "42" := by
  refine ⟨by decide, by decide⟩

/-- C6 (amended): the formatter is a total function (it cannot throw in
this model; the catch arm of the source, which would return the stringified
input unchanged, is unreachable), a non-string or falsy input is first
coerced with String(content or empty) and then formatted like that string,
and in particular 42 formats as the paragraph block wrapping "42". -/
theorem formatContent_amended :
    (∀ v : JSVal, formatContentForWordPress v =
      formatContentForWordPress (JSVal.vstr (if jsTruthy v then jsToString v else []))) ∧
    formatContentForWordPress (JSVal.vnum 42) =
      str "<!\x2d\x2d wp:paragraph \x2d\x2d><p>42</p><!\x2d\x2d /wp:paragraph \x2d\x2d>" := by
  constructor
  · intro v
    match v with
    | JSVal.vstr s =>
      match s with
      | [] => rfl
      | c :: cs => rfl
    | JSVal.vbool b =>
      match b with
      | true => rfl
      | false => rfl
    | JSVal.vnull => rfl
    | JSVal.vundef => rfl
    | JSVal.vnum n =>
      by_cases hn : n = 0
      · subst hn
        rfl
      · have ht : jsTruthy (JSVal.vnum n) = true := by simp [jsTruthy, hn]
        rw [ht, if_pos rfl]
        obtain ⟨c, cs, hcs⟩ : ∃ c cs, jsToString (JSVal.vnum n) = c :: cs := by
          rcases h : jsToString (JSVal.vnum n) with _ | ⟨c, cs⟩
          · exact absurd h (intStr_ne_nil n)
          · exact ⟨c, cs, rfl⟩
        rw [hcs]
        unfold formatContentForWordPress
        apply congrArg formatBody
        show (if jsTruthy (JSVal.vnum n) = true then jsToString (JSVal.vnum n) else []) =
          coerceContent (JSVal.vstr (c :: cs))
        rw [ht, if_pos rfl, hcs]
        rfl
  · decide

/-- C4 counterexample: the substituted value is not inserted verbatim and a
literal token can survive — a keyword of "$&" re-expands to the matched
token itself, and removing a token can splice a new token together from the
surrounding template text. -/
theorem applyPromptVariables_claim_counterexample :
    applyPromptVariables (str "\x7bkeyword\x7d") (str "$&") 5 = str "\x7bkeyword\x7d" ∧
    containsSub (str "\x7bkeyword\x7d")
      (applyPromptVariables (str "\x7bkeyword\x7d") (str "$&") 5) = true ∧
    applyPromptVariables (str "\x7bkey\x7bkeyword\x7dword\x7d") (str "") 5 =
      str "\x7bkeyword\x7d" := by
  refine ⟨by decide, by decide, by decide⟩

/-- Dollar expansion is the identity on a dollar-free replacement. -/
theorem expandNoGroups_of_no_dollar (mat pre post : List Char) :
    ∀ repl : List Char, (∀ c ∈ repl, c ≠ '$') →
      expandNoGroups mat pre post repl = repl := by
  intro repl h
  induction repl with
  | nil => rfl
  | cons c rest ih =>
    have hc : (c == '$') = false := by
      have := h c (by simp)
      simpa using this
    unfold expandNoGroups
    rw [hc]
    simp only [Bool.false_eq_true, if_false]
    rw [ih (fun d hd => h d (by simp [hd]))]

/-- With a dollar-free replacement and a nonempty pattern, the source's
global literal replacement coincides with the verbatim one. -/
theorem replaceLitGo_eq_verbatim (pat repl : List Char) (hpat : pat ≠ [])
    (hrepl : ∀ c ∈ repl, c ≠ '$') :
    ∀ (f : Nat) (seen s : List Char),
      replaceLitGo pat repl f seen s = verbatimReplaceAll pat repl f s := by
  intro f
  induction f with
  | zero => intro seen s; rfl
  | succ f ih =>
    intro seen s
    have hE : pat.isEmpty = false := by simp [List.isEmpty_iff, hpat]
    unfold replaceLitGo verbatimReplaceAll
    simp only [hE, Bool.false_eq_true, if_false]
    by_cases hp : isPre pat s = true
    · simp only [hp, if_true]
      rw [expandNoGroups_of_no_dollar _ _ _ _ hrepl, ih]
    · have hp2 : isPre pat s = false := by simpa using hp
      simp only [hp2, Bool.false_eq_true, if_false]
      match s with
      | [] => rfl
      | c :: rest =>
        show c :: replaceLitGo pat repl f (c :: seen) rest =
          c :: verbatimReplaceAll pat repl f rest
        rw [ih]

/-- A digit character is not a dollar. -/
theorem digitChar_ne_dollar (n : Nat) : digitChar n ≠ '$' := by
  unfold digitChar
  have h : n % 10 < 10 := Nat.mod_lt _ (by norm_num)
  set k := n % 10 with hk
  interval_cases k <;> decide

/-- Every character printed for a natural number is a decimal digit, in
particular not a dollar. -/
theorem natStrF_no_dollar : ∀ (f n : Nat), ∀ c ∈ natStrF f n, c ≠ '$' := by
  intro f
  induction f with
  | zero => intro n c hc; simp [natStrF] at hc
  | succ f ih =>
    intro n c hc
    unfold natStrF at hc
    split at hc
    · simp at hc
      subst hc
      exact digitChar_ne_dollar n
    · simp at hc
      rcases hc with hc | hc
      · exact ih _ c hc
      · subst hc
        exact digitChar_ne_dollar (n % 10)

/-- C4 (amended): with a dollar-free keyword value, prompt-variable
substitution is exactly the verbatim global literal replace-all of the two
tokens, located in the original text of each pass — so all original
occurrences are replaced, values are inserted verbatim, and regex
metacharacters elsewhere in the template have no effect.  (Without the
dollar restriction the replacement-string expansion applies, and a token
can also be re-formed by the substituted value or spliced from surrounding
text, as the counterexample shows.) -/
theorem applyPromptVariables_amended :
    ∀ (template kw : List Char) (mw : Nat),
      (∀ c ∈ kw, c ≠ '$') →
      applyPromptVariables template kw mw = verbatimSubst template kw mw := by
  intro template kw mw hkw
  unfold applyPromptVariables verbatimSubst replaceLit
  rw [if_neg (by decide), if_neg (by decide)]
  rw [replaceLitGo_eq_verbatim _ _ (by decide) hkw]
  exact replaceLitGo_eq_verbatim _ _ (by decide)
    (fun c hc => natStrF_no_dollar _ _ c hc) _ _ _

/-- Witness: a template with two keyword tokens and one minWords token,
substituted for a dollar-free keyword. -/
theorem applyPromptVariables_amended_witness :
    applyPromptVariables (str "a \x7bkeyword\x7d b \x7bkeyword\x7d (\x7bminWords\x7d)")
        (str "cats") 7 =
      verbatimSubst (str "a \x7bkeyword\x7d b \x7bkeyword\x7d (\x7bminWords\x7d)")
        (str "cats") 7 :=
  applyPromptVariables_amended _ _ _ (by decide)

/-- Every success of the single pass carries a word count computed from its
content. -/
theorem singlePass_wordCount (o : Oracle) (kw : List Char) (mw : Nat)
    (ps : Option PromptSettings) (a : Article) (n : Nat)
    (h : singlePassGenerate o kw mw ps = (Except.ok a, n)) :
    a.wordCount = countWords a.content := by
  unfold singlePassGenerate at h
  repeat' split at h
  all_goals simp_all
  all_goals (obtain ⟨ha, hn⟩ := h; subst ha; rfl)

/-- Every success of the multi-part generator carries a word count computed
from its content. -/
theorem multiPart_wordCount (o : Oracle) (kw : List Char) (mw : Nat)
    (p : PromptSettings) (a : Article) (n : Nat)
    (h : generateMultiPartArticle o kw mw p = (Except.ok a, n)) :
    a.wordCount = countWords a.content := by
  unfold generateMultiPartArticle at h
  repeat' split at h
  all_goals simp_all
  all_goals (obtain ⟨ha, hn⟩ := h; subst ha; rfl)

/-- C7: the word count of every generated article is the count of nonempty
whitespace-delimited tokens of its final content (HTML tags are not
stripped before counting); in particular a content of "<p>Hello world</p>"
counts two words. -/
theorem article_wordCount :
    (∀ (o : Oracle) (kw : List Char) (mw : Nat) (ps : Option PromptSettings)
        (a : Article) (n : Nat),
      generateArticleContent o kw mw ps = (Except.ok a, n) →
      a.wordCount = countWords a.content) ∧
    countWords (str "<p>Hello world</p>") = 2 := by
  constructor
  · intro o kw mw ps a n h
    unfold generateArticleContent at h
    repeat' split at h
    all_goals first
      | exact multiPart_wordCount _ _ _ _ a n h
      | exact singlePass_wordCount _ _ _ _ a n h
  · decide

/-- Witness: a run of the generator with a constant two-word response. -/
theorem article_wordCount_witness :
    (Except.ok
        { title := str "hello world"
          content := str "hello world"
          wordCount := 2
          recipeData := none },
      2) =
      generateArticleContent (fun _ _ _ => Except.ok (str "hello world"))
        (str "dogs") 100 none ∧
    2 = countWords (str "hello world") := by
  constructor
  · decide
  · exact (article_wordCount.1 (fun _ _ _ => Except.ok (str "hello world"))
      (str "dogs") 100 none
      { title := str "hello world", content := str "hello world",
        wordCount := 2, recipeData := none } 2 (by decide)).symm ▸ (by decide)

/-- Inversion of one part generation: the call counter advances by exactly
one, and the result reflects the single LLM call made. -/
theorem generateArticlePart_inv (o : Oracle) (k : Nat) (kw : List Char) (wc : Nat)
    (tpl sysMsg : List Char) (p : PromptSettings) (fi : List Char)
    (res : Except GenErr (List Char)) (n : Nat)
    (h : generateArticlePart o k kw wc tpl sysMsg p fi = (res, n)) :
    n = k + 1 ∧
    ((∃ em usr, res = Except.error (GenErr.llm em) ∧ o k sysMsg usr = Except.error em) ∨
     (∃ usr s, o k sysMsg usr = Except.ok s ∧
       (res = Except.error GenErr.internalError ∨ ∃ c, res = Except.ok c))) := by
  unfold generateArticlePart at h
  repeat' split at h
  all_goals (rw [Prod.mk.injEq] at h; obtain ⟨hres, hn⟩ := h; subst hres; subst hn)
  · exact ⟨rfl, Or.inl ⟨_, _, rfl, by assumption⟩⟩
  · exact ⟨rfl, Or.inr ⟨_, _, by assumption, Or.inr ⟨_, rfl⟩⟩⟩
  · exact ⟨rfl, Or.inr ⟨_, _, by assumption, Or.inl rfl⟩⟩

theorem singlePass_fail_fast (o : Oracle) (kw : List Char) (mw : Nat)
    (ps : Option PromptSettings) (k : Nat) (e : List Char)
    (hok : ∀ j, j < k → ∀ sys usr, ∃ s, o j sys usr = Except.ok s)
    (herr : ∀ sys usr, o k sys usr = Except.error e)
    (res : Except GenErr Article) (n : Nat)
    (hr : singlePassGenerate o kw mw ps = (res, n)) (hk : k < n) :
    res = Except.error (GenErr.llm e) ∧ n = k + 1 := by
  unfold singlePassGenerate at hr
  repeat' split at hr
  all_goals (rw [Prod.mk.injEq] at hr; obtain ⟨hres, hn⟩ := hr; subst hres; subst hn)
  all_goals (interval_cases k <;> simp_all)

set_option maxHeartbeats 2000000 in
theorem multiPart_fail_fast (o : Oracle) (kw : List Char) (mw : Nat)
    (p : PromptSettings) (k : Nat) (e : List Char)
    (hok : ∀ j, j < k → ∀ sys usr, ∃ s, o j sys usr = Except.ok s)
    (herr : ∀ sys usr, o k sys usr = Except.error e)
    (res : Except GenErr Article) (n : Nat)
    (hr : generateMultiPartArticle o kw mw p = (res, n)) (hk : k < n) :
    res = Except.error (GenErr.llm e) ∧ n = k + 1 := by
  unfold generateMultiPartArticle at hr
  split at hr
  case _ e1 n1 heq1 =>
    obtain ⟨hn1, hd1⟩ := generateArticlePart_inv _ _ _ _ _ _ _ _ _ _ heq1
    subst hn1
    rw [Prod.mk.injEq] at hr
    obtain ⟨hres, hn⟩ := hr
    subst hres
    subst hn
    interval_cases k <;>
      (rcases hd1 with ⟨em, usr, habs, hcall⟩ | ⟨usr, s, hcall, _⟩ <;> simp_all)
  case _ intro n1 heq1 =>
    obtain ⟨hn1, hd1⟩ := generateArticlePart_inv _ _ _ _ _ _ _ _ _ _ heq1
    subst hn1
    split at hr
    case _ e2 n2 heq2 =>
      obtain ⟨hn2, hd2⟩ := generateArticlePart_inv _ _ _ _ _ _ _ _ _ _ heq2
      subst hn2
      rw [Prod.mk.injEq] at hr
      obtain ⟨hres, hn⟩ := hr
      subst hres
      subst hn
      interval_cases k <;>
        (rcases hd1 with ⟨em, usr, habs, hcall⟩ | ⟨usr, s, hcall, _⟩ <;>
         rcases hd2 with ⟨em2, usr2, habs2, hcall2⟩ | ⟨usr2, s2, hcall2, _⟩ <;> simp_all)
    case _ body n2 heq2 =>
      obtain ⟨hn2, hd2⟩ := generateArticlePart_inv _ _ _ _ _ _ _ _ _ _ heq2
      subst hn2
      split at hr
      case _ e3 n3 heq3 =>
        obtain ⟨hn3, hd3⟩ := generateArticlePart_inv _ _ _ _ _ _ _ _ _ _ heq3
        subst hn3
        rw [Prod.mk.injEq] at hr
        obtain ⟨hres, hn⟩ := hr
        subst hres
        subst hn
        interval_cases k <;>
          (rcases hd1 with ⟨em, usr, habs, hcall⟩ | ⟨usr, s, hcall, _⟩ <;>
           rcases hd2 with ⟨em2, usr2, habs2, hcall2⟩ | ⟨usr2, s2, hcall2, _⟩ <;>
           rcases hd3 with ⟨em3, usr3, habs3, hcall3⟩ | ⟨usr3, s3, hcall3, _⟩ <;> simp_all)
      case _ concl n3 heq3 =>
        obtain ⟨hn3, hd3⟩ := generateArticlePart_inv _ _ _ _ _ _ _ _ _ _ heq3
        subst hn3
        split at hr
        case _ heq4 =>
          rw [Prod.mk.injEq] at hr
          obtain ⟨hres, hn⟩ := hr
          subst hres
          subst hn
          interval_cases k <;>
            (rcases hd1 with ⟨em, usr, habs, hcall⟩ | ⟨usr, s, hcall, _⟩ <;>
             rcases hd2 with ⟨em2, usr2, habs2, hcall2⟩ | ⟨usr2, s2, hcall2, _⟩ <;>
             rcases hd3 with ⟨em3, usr3, habs3, hcall3⟩ | ⟨usr3, s3, hcall3, _⟩ <;> simp_all)
        case _ combined heq4 =>
          split at hr
          case _ e5 heq5 =>
            rw [Prod.mk.injEq] at hr
            obtain ⟨hres, hn⟩ := hr
            subst hres
            subst hn
            interval_cases k <;>
              (rcases hd1 with ⟨em, usr, habs, hcall⟩ | ⟨usr, s, hcall, _⟩ <;>
               rcases hd2 with ⟨em2, usr2, habs2, hcall2⟩ | ⟨usr2, s2, hcall2, _⟩ <;>
               rcases hd3 with ⟨em3, usr3, habs3, hcall3⟩ | ⟨usr3, s3, hcall3, _⟩ <;> simp_all)
          case _ rawTitle heq5 =>
            split at hr
            case _ heq6 =>
              rw [Prod.mk.injEq] at hr
              obtain ⟨hres, hn⟩ := hr
              subst hres
              subst hn
              interval_cases k <;>
                (rcases hd1 with ⟨em, usr, habs, hcall⟩ | ⟨usr, s, hcall, _⟩ <;>
                 rcases hd2 with ⟨em2, usr2, habs2, hcall2⟩ | ⟨usr2, s2, hcall2, _⟩ <;>
                 rcases hd3 with ⟨em3, usr3, habs3, hcall3⟩ | ⟨usr3, s3, hcall3, _⟩ <;> simp_all)
            case _ title heq6 =>
              rw [Prod.mk.injEq] at hr
              obtain ⟨hres, hn⟩ := hr
              subst hres
              subst hn
              interval_cases k <;>
                (rcases hd1 with ⟨em, usr, habs, hcall⟩ | ⟨usr, s, hcall, _⟩ <;>
                 rcases hd2 with ⟨em2, usr2, habs2, hcall2⟩ | ⟨usr2, s2, hcall2, _⟩ <;>
                 rcases hd3 with ⟨em3, usr3, habs3, hcall3⟩ | ⟨usr3, s3, hcall3, _⟩ <;> simp_all)

/-- C5: when the calls before k succeed and call k fails with message e,
any generation run that reaches call k (made more than k calls) rejects
with exactly that underlying error, made no further call after the failing
one (the counter stopped at k + 1, so there was no retry), and returned no
article. -/
theorem generate_fail_fast :
    ∀ (o : Oracle) (kw : List Char) (mw : Nat) (ps : Option PromptSettings)
      (k : Nat) (e : List Char) (res : Except GenErr Article) (n : Nat),
      (∀ j, j < k → ∀ sys usr, ∃ s, o j sys usr = Except.ok s) →
      (∀ sys usr, o k sys usr = Except.error e) →
      generateArticleContent o kw mw ps = (res, n) →
      k < n →
      res = Except.error (GenErr.llm e) ∧ n = k + 1 := by
  intro o kw mw ps k e res n hok herr hr hk
  unfold generateArticleContent at hr
  repeat' split at hr
  all_goals first
    | exact multiPart_fail_fast _ _ _ _ _ _ hok herr _ _ hr hk
    | exact singlePass_fail_fast _ _ _ _ _ _ hok herr _ _ hr hk

/-- Witness: an oracle whose second call fails; the single pass rejects
with that error after exactly two calls. -/
theorem generate_fail_fast_witness :
    (generateArticleContent
        (fun j _ _ => if j == 0 then Except.ok (str "x") else Except.error (str "boom"))
        (str "dogs") 50 none).1 = Except.error (GenErr.llm (str "boom")) ∧
    (generateArticleContent
        (fun j _ _ => if j == 0 then Except.ok (str "x") else Except.error (str "boom"))
        (str "dogs") 50 none).2 = 1 + 1 :=
  generate_fail_fast
    (fun j _ _ => if j == 0 then Except.ok (str "x") else Except.error (str "boom"))
    (str "dogs") 50 none 1 (str "boom") _ _
    (fun j hj sys usr => by interval_cases j; exact ⟨str "x", rfl⟩)
    (fun sys usr => rfl) rfl (by decide)

/-- In the A-Z branch, lowc adds 32 to the code point. -/
theorem lowc_upper (c : Char) (h : ('A' ≤ c && c ≤ 'Z') = true) :
    (lowc c).toNat = c.toNat + 32 := by
  simp only [Bool.and_eq_true, decide_eq_true_eq] at h
  have h2 : c.toNat ≤ 90 := h.2
  unfold lowc
  rw [if_pos (by simp only [Bool.and_eq_true, decide_eq_true_eq]; exact h)]
  unfold Char.ofNat
  rw [dif_pos (Or.inl (by omega))]
  rfl

/-- lowc either fixes the character or lands in the lowercase letter range. -/
theorem lowc_cases (c : Char) :
    lowc c = c ∨ (97 ≤ (lowc c).toNat ∧ (lowc c).toNat ≤ 122) := by
  cases h : ('A' ≤ c && c ≤ 'Z') with
  | false => left; unfold lowc; rw [if_neg (by rw [h]; exact Bool.false_ne_true)]
  | true =>
    right
    have ht := lowc_upper c h
    simp only [Bool.and_eq_true, decide_eq_true_eq] at h
    have h1 : 65 ≤ c.toNat := h.1
    have h2 : c.toNat ≤ 90 := h.2
    omega

/-- lowc maps only the left bracket to the left bracket. -/
theorem lowc_eq_bracketL {c : Char} (h : lowc c = '[') : c = '[' := by
  rcases lowc_cases c with h1 | ⟨h1, h2⟩
  · rw [← h1, h]
  · exfalso
    rw [h] at h1 h2
    have : ('[' : Char).toNat = 91 := rfl
    omega

/-- lowc maps only the right bracket to the right bracket. -/
theorem lowc_eq_bracketR {c : Char} (h : lowc c = ']') : c = ']' := by
  rcases lowc_cases c with h1 | ⟨h1, h2⟩
  · rw [← h1, h]
  · exfalso
    rw [h] at h1 h2
    have : (']' : Char).toNat = 93 := rfl
    omega

/-- A code point in the lowercase letter range is a word character. -/
theorem isWordChar_of_toNat (d : Char) (h1 : 97 ≤ d.toNat) (h2 : d.toNat ≤ 122) :
    isWordChar d = true := by
  have ha : 'a' ≤ d := h1
  have hz : d ≤ 'z' := h2
  simp only [isWordChar, Bool.or_eq_true, Bool.and_eq_true, decide_eq_true_eq]
  exact Or.inl (Or.inl (Or.inl ⟨ha, hz⟩))

/-- Lowercasing does not change word-character status. -/
theorem isWordChar_lowc (c : Char) : isWordChar (lowc c) = isWordChar c := by
  cases h : ('A' ≤ c && c ≤ 'Z') with
  | false =>
    unfold lowc; rw [if_neg (by rw [h]; exact Bool.false_ne_true)]
  | true =>
    have ht := lowc_upper c h
    simp only [Bool.and_eq_true, decide_eq_true_eq] at h
    have h1 : 65 ≤ c.toNat := h.1
    have h2 : c.toNat ≤ 90 := h.2
    rw [isWordChar_of_toNat (lowc c) (by omega) (by omega)]
    have hA : 'A' ≤ c := h.1
    have hZ : c ≤ 'Z' := h.2
    have hc : isWordChar c = true := by
      simp only [isWordChar, Bool.or_eq_true, Bool.and_eq_true, decide_eq_true_eq]
      exact Or.inl (Or.inl (Or.inr ⟨hA, hZ⟩))
    rw [hc]

/-- Case-insensitively equal characters have the same word-character status. -/
theorem isWordChar_eqCI {a b : Char} (h : eqCI a b = true) :
    isWordChar a = isWordChar b := by
  have hl : lowc a = lowc b := by
    simpa only [eqCI, beq_iff_eq] using h
  rw [← isWordChar_lowc a, ← isWordChar_lowc b, hl]

/-- For a lowercase-fixed character, case-insensitive inequality from plain
inequality with another lowercase-fixed character. -/
theorem eqCI_ne_of_lower {t0 z : Char} (hl : lowc t0 = t0) (hz : lowc z = z)
    (hne : t0 ≠ z) : eqCI t0 z = false := by
  unfold eqCI
  rw [hl, hz, beq_eq_false_iff_ne]
  exact hne

/-- A case-insensitive prefix is no longer than the string. -/
theorem ciPrefix_length : ∀ {τ u : List Char}, ciPrefix τ u = true →
    τ.length ≤ u.length := by
  intro τ
  induction τ with
  | nil => intro u _; exact Nat.zero_le _
  | cons a as ih =>
    intro u h
    cases u with
    | nil => exact absurd h (by unfold ciPrefix; exact Bool.false_ne_true)
    | cons b bs =>
      unfold ciPrefix at h
      simp only [Bool.and_eq_true] at h
      simpa using ih h.2

/-- Only the first prefix-length characters matter to ciPrefix. -/
theorem ciPrefix_append_left : ∀ (τ P : List Char) (X : List Char),
    τ.length ≤ P.length → ciPrefix τ (P ++ X) = ciPrefix τ P := by
  intro τ
  induction τ with
  | nil => intro P X _; rfl
  | cons a as ih =>
    intro P X h
    cases P with
    | nil => simp at h
    | cons b bs =>
      rw [List.cons_append]
      unfold ciPrefix
      rw [ih bs X (by simpa using h)]

/-- Character-wise consequence of a case-insensitive prefix match. -/
theorem ciPrefix_getElem : ∀ {τ u : List Char}, ciPrefix τ u = true →
    ∀ {i : Nat} {a b : Char}, τ[i]? = some a → u[i]? = some b →
    eqCI a b = true := by
  intro τ
  induction τ with
  | nil => intro u _ i a b ha _; simp at ha
  | cons x xs ih =>
    intro u h i a b ha hb
    cases u with
    | nil => exact absurd h (by unfold ciPrefix; exact Bool.false_ne_true)
    | cons y ys =>
      unfold ciPrefix at h
      simp only [Bool.and_eq_true] at h
      cases i with
      | zero =>
        simp only [List.getElem?_cons_zero, Option.some.injEq] at ha hb
        rw [← ha, ← hb]
        exact h.1
      | succ j =>
        simp only [List.getElem?_cons_succ] at ha hb
        exact ih h.2 ha hb

/-- A lowercase pattern that matches case-insensitively a full-length target
prefix is that prefix lowercased. -/
theorem ciPrefix_eq_of_lower : ∀ (τ P X : List Char),
    (∀ c ∈ τ, lowc c = c) → τ.length = P.length →
    ciPrefix τ (P ++ X) = true → τ = lows P := by
  intro τ
  induction τ with
  | nil =>
    intro P X _ hlen _
    cases P with
    | nil => rfl
    | cons b bs => simp at hlen
  | cons a as ih =>
    intro P X hlow hlen h
    cases P with
    | nil => simp at hlen
    | cons b bs =>
      rw [List.cons_append] at h
      unfold ciPrefix at h
      simp only [Bool.and_eq_true] at h
      have ha : lowc a = lowc b := by
        simpa only [eqCI, beq_iff_eq] using h.1
      have haa : lowc a = a := hlow a (List.mem_cons_self a as)
      unfold lows
      rw [List.map_cons]
      have hbs : as = lows bs :=
        ih bs X (fun c hc => hlow c (List.mem_cons_of_mem a hc)) (by simpa using hlen) h.2
      show a :: as = lowc b :: lows bs
      rw [← hbs, ← ha, haa]


/-- head? as an indexed access. -/
theorem head?_eq_getElem? (s : List Char) : s.head? = s[0]? := by
  cases s <;> simp

/-- The last element of a take, as an indexed access. -/
theorem getLast?_take_eq (s : List Char) (m : Nat) (h1 : 1 ≤ m)
    (h2 : m ≤ s.length) : (s.take m).getLast? = s[m - 1]? := by
  rw [List.getLast?_eq_getElem?]
  have hl : (s.take m).length = m := by
    rw [List.length_take]; omega
  rw [hl, List.getElem?_take, if_pos (by omega)]

/-- wwAt written with indexed character accesses. -/
theorem wwAt_getElem (t0 : Char) (ts : List Char) (p : Option Char)
    (s : List Char) :
    wwAt t0 ts p s =
      (ciPrefix (t0 :: ts) s && wordB p s[0]? &&
        wordB s[ts.length]? s[ts.length + 1]?) := by
  cases hc : ciPrefix (t0 :: ts) s with
  | false => unfold wwAt; rw [hc]; simp
  | true =>
    have hlen : ts.length + 1 ≤ s.length := by
      have := ciPrefix_length hc
      simpa using this
    unfold wwAt
    rw [head?_eq_getElem?, getLast?_take_eq s (ts.length + 1) (by omega) hlen,
      List.head?_drop, Nat.add_sub_cancel, hc]


theorem ctxO_nil (q : Option Char) : ctxO q [] = q := rfl

theorem ctxO_cons (q : Option Char) (c : Char) (A : List Char) :
    ctxO q (c :: A) = ctxO (some c) A := by
  cases A with
  | nil => rfl
  | cons a as =>
    unfold ctxO
    rw [List.getLast?_cons_cons]
    cases h : (a :: as).getLast? with
    | some x => rfl
    | none => simp at h

theorem ctxO_eq_getLast (c : Char) (A : List Char) :
    ctxO (some c) A = (c :: A).getLast? := by
  induction A generalizing c with
  | nil => rfl
  | cons a as ih =>
    rw [ctxO_cons, ih, List.getLast?_cons_cons]

/-- No whole-word match in a string means none in any suffix, with the
context character carried along. -/
theorem hasWW_append (t0 : Char) (ts : List Char) :
    ∀ (X : List Char) (p : Option Char) (Y : List Char),
    hasWW t0 ts p (X ++ Y) = false → hasWW t0 ts (ctxO p X) Y = false := by
  intro X
  induction X with
  | nil => intro p Y h; exact h
  | cons x xs ih =>
    intro p Y h
    rw [List.cons_append] at h
    unfold hasWW at h
    simp only [Bool.or_eq_false_iff] at h
    rw [ctxO_cons]
    exact ih (some x) Y h.2

/-- A scan that finds no whole-word occurrence replaces nothing. -/
theorem rw_id_of_hasWW_false (t0 : Char) (ts repl : List Char) :
    ∀ (f : Nat) (p : Option Char) (s : List Char),
    hasWW t0 ts p s = false → rw t0 ts repl f p s = s := by
  intro f
  induction f with
  | zero => intro p s _; rfl
  | succ f ih =>
    intro p s h
    cases s with
    | nil => rfl
    | cons c rest =>
      unfold hasWW at h
      simp only [Bool.or_eq_false_iff] at h
      simp only [rw]
      rw [if_neg (by rw [h.1]; exact Bool.false_ne_true), ih (some c) rest h.2]

/-- Structure of one global-replace pass: either the text is returned
unchanged, or the output splits at the first match into an untouched block,
the replacement, and a recursive pass on the remainder. -/
theorem rw_struct (u0 : Char) (us repl : List Char) :
    ∀ (f : Nat) (q : Option Char) (s : List Char), s.length ≤ f →
    rw u0 us repl f q s = s ∨
    ∃ A M s₂ g, s = A ++ (M ++ s₂) ∧ M.length = us.length + 1 ∧
      s₂.length ≤ g ∧
      wwAt u0 us (ctxO q A) (M ++ s₂) = true ∧
      rw u0 us repl f q s = A ++ (repl ++ rw u0 us repl g M.getLast? s₂) := by
  intro f
  induction f with
  | zero =>
    intro q s hf
    left
    have : s = [] := List.length_eq_zero.mp (Nat.le_zero.mp hf)
    rw [this]
    rfl
  | succ f ih =>
    intro q s hf
    cases s with
    | nil => left; rfl
    | cons c rest =>
      cases hM : wwAt u0 us q (c :: rest) with
      | true =>
        right
        refine ⟨[], (c :: rest).take (us.length + 1), (c :: rest).drop (us.length + 1),
          f, ?_, ?_, ?_, ?_, ?_⟩
        · rw [List.nil_append, List.take_append_drop]
        · have hpre : ciPrefix (u0 :: us) (c :: rest) = true := by
            unfold wwAt at hM
            simp only [Bool.and_eq_true] at hM
            exact hM.1.1
          have := ciPrefix_length hpre
          rw [List.length_take]
          simp only [List.length_cons] at this ⊢
          omega
        · rw [List.length_drop]
          simp only [List.length_cons] at hf ⊢
          omega
        · rw [ctxO_nil, List.take_append_drop]
          exact hM
        · rw [List.nil_append]
          simp only [rw]
          rw [if_pos hM]
      | false =>
        have hrest : rest.length ≤ f := by
          simp only [List.length_cons] at hf
          omega
        have hstep : rw u0 us repl (f + 1) q (c :: rest) =
            c :: rw u0 us repl f (some c) rest := by
          simp only [rw]
          rw [if_neg (by rw [hM]; exact Bool.false_ne_true)]
        rcases ih (some c) rest hrest with hid | ⟨A, M, s₂, g, hs, hMl, hg, hww, heq⟩
        · left
          rw [hstep, hid]
        · right
          refine ⟨c :: A, M, s₂, g, ?_, hMl, hg, ?_, ?_⟩
          · rw [List.cons_append, ← hs]
          · rw [ctxO_cons]
            exact hww
          · rw [hstep, heq, List.cons_append]

/-- An indexed lookup that succeeds yields a member of the list. -/
theorem mem_of_idx {l : List Char} {i : Nat} {a : Char} (h : l[i]? = some a) :
    a ∈ l := by
  have h2 : i < l.length := by
    by_contra hc
    rw [List.getElem?_eq_none (by omega)] at h
    exact Option.noConfusion h
  rw [List.getElem?_eq_getElem h2] at h
  exact (Option.some.injEq _ _ ▸ h) ▸ l.getElem_mem h2

/-- An indexed lookup that fails means the index is out of range. -/
theorem len_le_of_idx_none {l : List Char} {i : Nat} (h : l[i]? = none) :
    l.length ≤ i := by
  by_contra hc
  rw [List.getElem?_eq_getElem (by omega)] at h
  exact Option.noConfusion h

/-- A whole-word match cannot start on a character that differs
case-insensitively from the head of the term. -/
theorem wwAt_head_ne (t0 : Char) (ts : List Char) (p : Option Char) (z : Char)
    (Z : List Char) (hne : eqCI t0 z = false) :
    wwAt t0 ts p (z :: Z) = false := by
  simp [wwAt, ciPrefix, hne]

/-- A whole-word match cannot start where the previous character has the
same word status as the current one. -/
theorem wwAt_bL_false (t0 : Char) (ts : List Char) (a b : Char) (Z : List Char)
    (h : isWordChar a = isWordChar b) :
    wwAt t0 ts (some a) (b :: Z) = false := by
  simp [wwAt, wordB, isWordO, h]

/-- wwAt only depends on the word status of the previous character. -/
theorem wwAt_congr_prev (t0 : Char) (ts : List Char) {p q : Option Char}
    (h : isWordO p = isWordO q) (s : List Char) :
    wwAt t0 ts p s = wwAt t0 ts q s := by
  unfold wwAt wordB
  rw [h]

/-- wwAt at the head of a long enough block ignores what follows the block. -/
theorem wwAt_append_congr (t0 : Char) (ts : List Char) (p : Option Char)
    (P X Y : List Char) (h : ts.length + 2 ≤ P.length) :
    wwAt t0 ts p (P ++ X) = wwAt t0 ts p (P ++ Y) := by
  rw [wwAt_getElem, wwAt_getElem,
    ciPrefix_append_left (t0 :: ts) P X (by simp; omega),
    ciPrefix_append_left (t0 :: ts) P Y (by simp; omega)]
  have e0x : (P ++ X)[0]? = P[0]? := by rw [List.getElem?_append, if_pos (by omega)]
  have e0y : (P ++ Y)[0]? = P[0]? := by rw [List.getElem?_append, if_pos (by omega)]
  have e1x : (P ++ X)[ts.length]? = P[ts.length]? := by
    rw [List.getElem?_append, if_pos (by omega)]
  have e1y : (P ++ Y)[ts.length]? = P[ts.length]? := by
    rw [List.getElem?_append, if_pos (by omega)]
  have e2x : (P ++ X)[ts.length + 1]? = P[ts.length + 1]? := by
    rw [List.getElem?_append, if_pos (by omega)]
  have e2y : (P ++ Y)[ts.length + 1]? = P[ts.length + 1]? := by
    rw [List.getElem?_append, if_pos (by omega)]
  rw [e0x, e0y, e1x, e1y, e2x, e2y]

/-- No conforming term matches starting inside the letters of the
replacement text "[alternative]". -/
theorem wwAt_altRepl_inner (t0 : Char) (ts : List Char)
    (hlow : ∀ c ∈ t0 :: ts, lowc c = c)
    (hbr : ']' ∉ t0 :: ts)
    (halt : t0 :: ts ≠ str "alternative")
    (X : List Char) :
    wwAt t0 ts (some '[')
      ('a' :: 'l' :: 't' :: 'e' :: 'r' :: 'n' :: 'a' :: 't' :: 'i' :: 'v' ::
        'e' :: ']' :: X) = false := by
  have hsplit : ('a' :: 'l' :: 't' :: 'e' :: 'r' :: 'n' :: 'a' :: 't' :: 'i' ::
      'v' :: 'e' :: ']' :: X) = str "alternative" ++ (']' :: X) := rfl
  rcases Nat.lt_trichotomy ts.length 10 with hk | hk | hk
  · rw [wwAt_getElem]
    have hword : ∀ d ∈ str "alternative", isWordChar d = true := by decide
    have h1 : ∀ i : Nat, i < 11 →
        ∃ d, ('a' :: 'l' :: 't' :: 'e' :: 'r' :: 'n' :: 'a' :: 't' :: 'i' ::
          'v' :: 'e' :: ']' :: X)[i]? = some d ∧ isWordChar d = true := by
      intro i hi
      have hlen11 : (str "alternative").length = 11 := rfl
      rw [hsplit, List.getElem?_append, if_pos (by omega)]
      cases hd : (str "alternative")[i]? with
      | none =>
        exfalso
        have := len_le_of_idx_none hd
        omega
      | some d =>
        exact ⟨d, rfl, hword d (mem_of_idx hd)⟩
    obtain ⟨d1, hd1, hw1⟩ := h1 ts.length (by omega)
    obtain ⟨d2, hd2, hw2⟩ := h1 (ts.length + 1) (by omega)
    rw [hd1, hd2]
    have : wordB (some d1) (some d2) = false := by
      simp [wordB, isWordO, hw1, hw2]
    rw [this, Bool.and_false]
  · cases hc : ciPrefix (t0 :: ts)
        ('a' :: 'l' :: 't' :: 'e' :: 'r' :: 'n' :: 'a' :: 't' :: 'i' :: 'v' ::
          'e' :: ']' :: X) with
    | false => rw [wwAt_getElem, hc]; simp
    | true =>
      exfalso
      rw [hsplit] at hc
      have heq : t0 :: ts = lows (str "alternative") :=
        ciPrefix_eq_of_lower (t0 :: ts) (str "alternative") (']' :: X) hlow
          (by simp [hk, str]) hc
      have : lows (str "alternative") = str "alternative" := by decide
      exact halt (heq.trans this)
  · cases hc : ciPrefix (t0 :: ts)
        ('a' :: 'l' :: 't' :: 'e' :: 'r' :: 'n' :: 'a' :: 't' :: 'i' :: 'v' ::
          'e' :: ']' :: X) with
    | false => rw [wwAt_getElem, hc]; simp
    | true =>
      exfalso
      cases hts : ts[10]? with
      | none =>
        have := len_le_of_idx_none hts
        omega
      | some a =>
        have hlen11 : (str "alternative").length = 11 := rfl
        have h11 : (t0 :: ts)[11]? = some a := by
          rw [show (11 : Nat) = 10 + 1 from rfl, List.getElem?_cons_succ]
          exact hts
        have hs11 : ('a' :: 'l' :: 't' :: 'e' :: 'r' :: 'n' :: 'a' :: 't' ::
            'i' :: 'v' :: 'e' :: ']' :: X)[11]? = some ']' := by
          rw [hsplit, List.getElem?_append_right (le_of_eq hlen11)]
          simp [hlen11]
        have hci := ciPrefix_getElem hc h11 hs11
        have hla : lowc a = a := hlow a (List.mem_cons_of_mem t0 (mem_of_idx hts))
        have : a = ']' := by
          have hl : lowc a = lowc ']' := by
            simpa only [eqCI, beq_iff_eq] using hci
          rw [hla] at hl
          rw [hl]
          decide
        exact hbr (this ▸ List.mem_cons_of_mem t0 (mem_of_idx hts))

/-- Scanning across the replacement text "[alternative]" finds no
occurrence of a conforming term inside it; the scan resumes after the
closing bracket. -/
theorem hasWW_altRepl (t0 : Char) (ts : List Char)
    (hlow : ∀ c ∈ t0 :: ts, lowc c = c)
    (hbl : '[' ∉ t0 :: ts) (hbr : ']' ∉ t0 :: ts)
    (halt : t0 :: ts ≠ str "alternative") :
    ∀ (p : Option Char) (X : List Char),
      hasWW t0 ts p (altRepl ++ X) = hasWW t0 ts (some ']') X := by
  intro p X
  have hlt0 : lowc t0 = t0 := hlow t0 (List.mem_cons_self t0 ts)
  have e0 : eqCI t0 '[' = false :=
    eqCI_ne_of_lower hlt0 (by decide)
      (by intro he; exact hbl (by rw [← he]; exact List.mem_cons_self t0 ts))
  have e12 : eqCI t0 ']' = false :=
    eqCI_ne_of_lower hlt0 (by decide)
      (by intro he; exact hbr (by rw [← he]; exact List.mem_cons_self t0 ts))
  show hasWW t0 ts p ('[' :: 'a' :: 'l' :: 't' :: 'e' :: 'r' :: 'n' :: 'a' ::
    't' :: 'i' :: 'v' :: 'e' :: ']' :: X) = hasWW t0 ts (some ']') X
  simp only [hasWW]
  rw [wwAt_head_ne t0 ts p '[' _ e0,
    wwAt_altRepl_inner t0 ts hlow hbr halt X,
    wwAt_bL_false t0 ts 'a' 'l' _ (by decide),
    wwAt_bL_false t0 ts 'l' 't' _ (by decide),
    wwAt_bL_false t0 ts 't' 'e' _ (by decide),
    wwAt_bL_false t0 ts 'e' 'r' _ (by decide),
    wwAt_bL_false t0 ts 'r' 'n' _ (by decide),
    wwAt_bL_false t0 ts 'n' 'a' _ (by decide),
    wwAt_bL_false t0 ts 'a' 't' _ (by decide),
    wwAt_bL_false t0 ts 't' 'i' _ (by decide),
    wwAt_bL_false t0 ts 'i' 'v' _ (by decide),
    wwAt_bL_false t0 ts 'v' 'e' _ (by decide),
    wwAt_head_ne t0 ts (some 'e') ']' _ e12]
  simp only [Bool.false_or]

/-- Replacing occurrences of any term further right in the text cannot
create a fresh whole-word occurrence of a conforming term at the current
position: a match at the head of the partially rewritten text forces a
match at the head of the original text. -/
theorem wwAt_transfer (t0 : Char) (ts : List Char)
    (hlow : ∀ c ∈ t0 :: ts, lowc c = c) (hbl : '[' ∉ t0 :: ts)
    (u0 : Char) (us : List Char)
    (f : Nat) (c : Char) (rest : List Char) (pI pO : Option Char)
    (hf : rest.length ≤ f)
    (hno : wwAt t0 ts pI (c :: rest) = false)
    (hinv : isWordO pO = isWordO pI ∨
      (isWordO pO = false ∧ isWordChar c = false)) :
    wwAt t0 ts pO (c :: rw u0 us altRepl f (some c) rest) = false := by
  cases hocc : wwAt t0 ts pO (c :: rw u0 us altRepl f (some c) rest) with
  | false => rfl
  | true =>
    exfalso
    have hbL : wordB pO (some c) = true := by
      have h := hocc
      rw [wwAt_getElem] at h
      simp only [Bool.and_eq_true] at h
      have h2 := h.1.2
      rwa [List.getElem?_cons_zero] at h2
    have hpq : isWordO pO = isWordO pI := by
      rcases hinv with h | ⟨h1, h2⟩
      · exact h
      · exfalso
        rw [wordB, h1] at hbL
        simp [isWordO, h2] at hbL
    have hno2 : wwAt t0 ts pO (c :: rest) = false := by
      rw [wwAt_congr_prev t0 ts hpq]
      exact hno
    rcases rw_struct u0 us altRepl f (some c) rest hf with
      hid | ⟨A, M, s₂, g, hs, hMl, hg, hww, heq⟩
    · rw [hid, hno2] at hocc
      exact Bool.false_ne_true hocc
    · generalize hDD : rw u0 us altRepl g M.getLast? s₂ = D at heq
      rw [heq, ← List.cons_append] at hocc
      have hoccKeep := hocc
      rw [wwAt_getElem] at hocc
      simp only [Bool.and_eq_true] at hocc
      obtain ⟨⟨hpre, hb0⟩, hb1⟩ := hocc
      have hbrk : ((c :: A) ++ (altRepl ++ D))[A.length + 1]? = some '[' := by
        rw [List.getElem?_append_right (by simp)]
        rw [show altRepl ++ D = '[' ::
          (str "alternative]" ++ D) from rfl]
        simp
      rcases Nat.lt_trichotomy ts.length A.length with hcmp | hcmp | hcmp
      · -- term strictly inside the untouched block
        have hcongr : wwAt t0 ts pO ((c :: A) ++ (altRepl ++ D)) =
            wwAt t0 ts pO ((c :: A) ++ (M ++ s₂)) :=
          wwAt_append_congr t0 ts pO (c :: A) _ _ (by simp; omega)
        rw [hs, ← List.cons_append] at hno2
        rw [hcongr, hno2] at hoccKeep
        exact Bool.false_ne_true hoccKeep
      · -- term ends exactly at the replacement boundary
        have hlast : (c :: A).getLast? = (c :: A)[A.length]? := by
          rw [List.getLast?_eq_getElem?]
          simp
        cases hL : (c :: A).getLast? with
        | none => simp at hL
        | some lastCA =>
          rw [hlast] at hL
          have hTl : ((c :: A) ++ (altRepl ++ D))[A.length]? = some lastCA := by
            rw [List.getElem?_append, if_pos (by simp)]
            exact hL
          rw [hcmp] at hb1
          rw [hTl, hbrk] at hb1
          have h91 : isWordChar '[' = false := by decide
          rw [wordB] at hb1
          simp only [isWordO, h91] at hb1
          have hWlast : isWordChar lastCA = true := by
            simpa using hb1
          cases M with
          | nil => simp at hMl
          | cons m0 M2 =>
            rw [wwAt_getElem] at hww
            simp only [Bool.and_eq_true] at hww
            have hw2 := hww.1.2
            rw [ctxO_eq_getLast, hlast, hL, List.cons_append,
              List.getElem?_cons_zero] at hw2
            have hpre2 : ciPrefix (t0 :: ts) (c :: A) = true := by
              rw [ciPrefix_append_left (t0 :: ts) (c :: A) (altRepl ++ D)
                (by simp [hcmp])] at hpre
              exact hpre
            have hcontra : wwAt t0 ts pO (c :: rest) = true := by
              rw [hs, ← List.cons_append, wwAt_getElem]
              rw [ciPrefix_append_left (t0 :: ts) (c :: A) ((m0 :: M2) ++ s₂)
                (by simp [hcmp])]
              have i0 : ((c :: A) ++ ((m0 :: M2) ++ s₂))[0]? = some c := by
                rw [List.getElem?_append, if_pos (by simp),
                  List.getElem?_cons_zero]
              have i1 : ((c :: A) ++ ((m0 :: M2) ++ s₂))[ts.length]? =
                  some lastCA := by
                rw [hcmp, List.getElem?_append, if_pos (by simp)]
                exact hL
              have i2 : ((c :: A) ++ ((m0 :: M2) ++ s₂))[ts.length + 1]? =
                  some m0 := by
                rw [hcmp, List.getElem?_append_right (by simp)]
                simp
              rw [i0, i1, i2, hpre2, hbL, hw2]
              rfl
            rw [hno2] at hcontra
            exact Bool.false_ne_true hcontra
      · -- term would run into the replacement text
        cases hts : ts[A.length]? with
        | none =>
          have := len_le_of_idx_none hts
          omega
        | some a =>
          have hta : (t0 :: ts)[A.length + 1]? = some a := by
            rw [List.getElem?_cons_succ]
            exact hts
          have hci := ciPrefix_getElem hpre hta hbrk
          have hla : lowc a = a :=
            hlow a (List.mem_cons_of_mem t0 (mem_of_idx hts))
          have ha : a = '[' := by
            have hl : lowc a = lowc '[' := by
              simpa only [eqCI, beq_iff_eq] using hci
            rw [hla] at hl
            rw [hl]
            decide
          exact hbl (ha ▸ List.mem_cons_of_mem t0 (mem_of_idx hts))

/-- Context after a nonempty block is its last character. -/
theorem ctxO_ne_nil (q : Option Char) (A : List Char) (h : A ≠ []) :
    ctxO q A = A.getLast? := by
  cases A with
  | nil => exact absurd rfl h
  | cons a as => rw [ctxO_cons, ctxO_eq_getLast]

/-- After one global replace of a conforming term by "[alternative]", the
output contains no whole-word occurrence of that term, for any outer
context of matching word status. -/
theorem hasWW_rw_self (t0 : Char) (ts : List Char)
    (hlow : ∀ c ∈ t0 :: ts, lowc c = c)
    (hbl : '[' ∉ t0 :: ts) (hbr : ']' ∉ t0 :: ts)
    (halt : t0 :: ts ≠ str "alternative") :
    ∀ (f : Nat) (s : List Char) (pI pO : Option Char), s.length ≤ f →
    (isWordO pO = isWordO pI ∨
      (isWordO pO = false ∧ isWordO s.head? = false)) →
    hasWW t0 ts pO (rw t0 ts altRepl f pI s) = false := by
  intro f
  induction f with
  | zero =>
    intro s pI pO hf _
    have hs : s = [] := List.length_eq_zero.mp (Nat.le_zero.mp hf)
    rw [hs]
    rfl
  | succ f ih =>
    intro s pI pO hf hinv
    cases s with
    | nil => rfl
    | cons c rest =>
      cases hM : wwAt t0 ts pI (c :: rest) with
      | true =>
        have hstep : rw t0 ts altRepl (f + 1) pI (c :: rest) =
            altRepl ++ rw t0 ts altRepl f
              (((c :: rest).take (ts.length + 1)).getLast?)
              ((c :: rest).drop (ts.length + 1)) := by
          simp only [rw]
          rw [if_pos hM]
        rw [hstep, hasWW_altRepl t0 ts hlow hbl hbr halt]
        apply ih
        · rw [List.length_drop]
          simp only [List.length_cons] at hf ⊢
          omega
        · cases hw : isWordO (((c :: rest).take (ts.length + 1)).getLast?) with
          | false =>
            left
            decide
          | true =>
            right
            refine ⟨by decide, ?_⟩
            unfold wwAt at hM
            simp only [Bool.and_eq_true] at hM
            have hb := hM.2
            rw [wordB, hw] at hb
            cases hd : isWordO (((c :: rest).drop (ts.length + 1)).head?) with
            | false => rfl
            | true =>
              rw [hd] at hb
              simp at hb
      | false =>
        have hstep : rw t0 ts altRepl (f + 1) pI (c :: rest) =
            c :: rw t0 ts altRepl f (some c) rest := by
          simp only [rw]
          rw [if_neg (by rw [hM]; exact Bool.false_ne_true)]
        rw [hstep]
        have hinv2 : isWordO pO = isWordO pI ∨
            (isWordO pO = false ∧ isWordChar c = false) := by
          rcases hinv with h | ⟨h1, h2⟩
          · exact Or.inl h
          · exact Or.inr ⟨h1, by simpa [isWordO] using h2⟩
        have hlen : rest.length ≤ f := by
          simp only [List.length_cons] at hf
          omega
        simp only [hasWW]
        rw [wwAt_transfer t0 ts hlow hbl t0 ts f c rest pI pO hlen hM hinv2,
          ih rest (some c) (some c) hlen (Or.inl rfl)]
        rfl

/-- A global replace of any nonempty term by "[alternative]" cannot
introduce a whole-word occurrence of a conforming term that the text did
not already contain. -/
theorem hasWW_rw_other (t0 : Char) (ts : List Char)
    (hlow : ∀ c ∈ t0 :: ts, lowc c = c)
    (hbl : '[' ∉ t0 :: ts) (hbr : ']' ∉ t0 :: ts)
    (halt : t0 :: ts ≠ str "alternative") (u0 : Char) (us : List Char) :
    ∀ (f : Nat) (s : List Char) (pI pO : Option Char), s.length ≤ f →
    hasWW t0 ts pI s = false →
    (isWordO pO = isWordO pI ∨
      (isWordO pO = false ∧ isWordO s.head? = false)) →
    hasWW t0 ts pO (rw u0 us altRepl f pI s) = false := by
  intro f
  induction f with
  | zero =>
    intro s pI pO hf _ _
    have hs : s = [] := List.length_eq_zero.mp (Nat.le_zero.mp hf)
    rw [hs]
    rfl
  | succ f ih =>
    intro s pI pO hf habs hinv
    cases s with
    | nil => rfl
    | cons c rest =>
      have habs2 := habs
      unfold hasWW at habs2
      simp only [Bool.or_eq_false_iff] at habs2
      cases hM : wwAt u0 us pI (c :: rest) with
      | true =>
        have hstep : rw u0 us altRepl (f + 1) pI (c :: rest) =
            altRepl ++ rw u0 us altRepl f
              (((c :: rest).take (us.length + 1)).getLast?)
              ((c :: rest).drop (us.length + 1)) := by
          simp only [rw]
          rw [if_pos hM]
        rw [hstep, hasWW_altRepl t0 ts hlow hbl hbr halt]
        apply ih
        · rw [List.length_drop]
          simp only [List.length_cons] at hf ⊢
          omega
        · have h2 := hasWW_append t0 ts ((c :: rest).take (us.length + 1)) pI
            ((c :: rest).drop (us.length + 1))
            (by rw [List.take_append_drop]; exact habs)
          rwa [ctxO_ne_nil pI ((c :: rest).take (us.length + 1))
            (by rw [List.take_succ_cons]; exact List.cons_ne_nil _ _)] at h2
        · cases hw : isWordO (((c :: rest).take (us.length + 1)).getLast?) with
          | false =>
            left
            decide
          | true =>
            right
            refine ⟨by decide, ?_⟩
            unfold wwAt at hM
            simp only [Bool.and_eq_true] at hM
            have hb := hM.2
            rw [wordB, hw] at hb
            cases hd : isWordO (((c :: rest).drop (us.length + 1)).head?) with
            | false => rfl
            | true =>
              rw [hd] at hb
              simp at hb
      | false =>
        have hstep : rw u0 us altRepl (f + 1) pI (c :: rest) =
            c :: rw u0 us altRepl f (some c) rest := by
          simp only [rw]
          rw [if_neg (by rw [hM]; exact Bool.false_ne_true)]
        rw [hstep]
        have hinv2 : isWordO pO = isWordO pI ∨
            (isWordO pO = false ∧ isWordChar c = false) := by
          rcases hinv with h | ⟨h1, h2⟩
          · exact Or.inl h
          · exact Or.inr ⟨h1, by simpa [isWordO] using h2⟩
        have hlen : rest.length ≤ f := by
          simp only [List.length_cons] at hf
          omega
        simp only [hasWW]
        rw [wwAt_transfer t0 ts hlow hbl u0 us f c rest pI pO hlen habs2.1 hinv2,
          ih rest (some c) (some c) hlen habs2.2 (Or.inl rfl)]
        rfl


theorem termOK_ne_nil {t : List Char} (h : termOK t = true) : t ≠ [] := by
  simp only [termOK, Bool.and_eq_true, decide_eq_true_eq] at h
  exact h.1.1.1.1

theorem termOK_spec {t0 : Char} {ts : List Char}
    (h : termOK (t0 :: ts) = true) :
    (∀ c ∈ t0 :: ts, lowc c = c) ∧ '[' ∉ (t0 :: ts) ∧ ']' ∉ (t0 :: ts) ∧
      (t0 :: ts) ≠ str "alternative" := by
  simp only [termOK, Bool.and_eq_true, decide_eq_true_eq] at h
  obtain ⟨⟨⟨⟨_, h2⟩, h3⟩, h4⟩, h5⟩ := h
  refine ⟨?_, h3, h4, h5⟩
  intro c hc
  have h6 := List.all_eq_true.mp h2 c hc
  simpa using h6

/-- Replacing a conforming term removes every whole-word occurrence of it. -/
theorem containsWW_replace_self {t : List Char} (h : termOK t = true)
    (s : List Char) : containsWW t (replaceWW t altRepl s) = false := by
  cases t with
  | nil => exact absurd rfl (termOK_ne_nil h)
  | cons t0 ts =>
    obtain ⟨hlow, hbl, hbr, halt⟩ := termOK_spec h
    show hasWW t0 ts none (rw t0 ts altRepl s.length none s) = false
    exact hasWW_rw_self t0 ts hlow hbl hbr halt s.length s none none
      (Nat.le_refl _) (Or.inl rfl)

/-- Replacing any other term preserves the absence of a conforming term. -/
theorem containsWW_replace_other {t : List Char} (h : termOK t = true)
    (u : List Char) (s : List Char) (habs : containsWW t s = false) :
    containsWW t (replaceWW u altRepl s) = false := by
  cases t with
  | nil => rfl
  | cons t0 ts =>
    obtain ⟨hlow, hbl, hbr, halt⟩ := termOK_spec h
    cases u with
    | nil => exact habs
    | cons u0 us =>
      show hasWW t0 ts none (rw u0 us altRepl s.length none s) = false
      exact hasWW_rw_other t0 ts hlow hbl hbr halt u0 us s.length s none none
        (Nat.le_refl _) habs (Or.inl rfl)

/-- Replacing a term that does not occur leaves the text unchanged. -/
theorem replaceWW_id {t : List Char} (s : List Char)
    (habs : containsWW t s = false) : replaceWW t altRepl s = s := by
  cases t with
  | nil => rfl
  | cons t0 ts => exact rw_id_of_hasWW_false t0 ts altRepl s.length none s habs

/-- Absence of a conforming term survives the whole suppression fold. -/
theorem fold_preserves {t : List Char} (h : termOK t = true) :
    ∀ (terms : List (List Char)) (s : List Char),
    containsWW t s = false →
    containsWW t
      (terms.foldl (fun acc u => replaceWW u altRepl acc) s) = false := by
  intro terms
  induction terms with
  | nil => intro s habs; exact habs
  | cons u rest ih =>
    intro s habs
    rw [List.foldl_cons]
    exact ih (replaceWW u altRepl s) (containsWW_replace_other h u s habs)

/-- After the suppression fold, no conforming processed term occurs
whole-word in the output. -/
theorem fold_absent :
    ∀ (terms : List (List Char)) (s : List Char),
    (∀ u ∈ terms, termOK u = true) →
    ∀ t ∈ terms,
      containsWW t
        (terms.foldl (fun acc u => replaceWW u altRepl acc) s) = false := by
  intro terms
  induction terms with
  | nil => intro s _ t ht; exact absurd ht (List.not_mem_nil t)
  | cons u rest ih =>
    intro s hok t ht
    rw [List.foldl_cons]
    rcases List.mem_cons.mp ht with rfl | ht2
    · exact fold_preserves (hok t (List.mem_cons_self t rest)) rest _
        (containsWW_replace_self (hok t (List.mem_cons_self t rest)) s)
    · exact ih (replaceWW u altRepl s)
        (fun v hv => hok v (List.mem_cons_of_mem u hv)) t ht2

/-- A fold over terms none of which occur in the text is the identity. -/
theorem fold_id :
    ∀ (terms : List (List Char)) (s : List Char),
    (∀ t ∈ terms, containsWW t s = false) →
    terms.foldl (fun acc u => replaceWW u altRepl acc) s = s := by
  intro terms
  induction terms with
  | nil => intro s _; rfl
  | cons u rest ih =>
    intro s habs
    rw [List.foldl_cons, replaceWW_id s (habs u (List.mem_cons_self u rest))]
    exact ih s (fun t ht => habs t (List.mem_cons_of_mem u ht))

/-- C2: the term suppressor parses the avoid specification
"foo, \"bar baz\", qux" into exactly the three terms foo, bar baz and
qux; for every input text, suppression with that specification yields an
output with no case-insensitive whole-word occurrence of "foo" or
"bar baz"; and on the spec's example every original occurrence is
replaced by the literal string "[alternative]". -/
theorem removeProhibitedContent_suppresses :
    avoidTerms (str "foo, \"bar baz\", qux") =
      some [str "foo", str "bar baz", str "qux"] ∧
    (∀ text : List Char, ∃ out,
      removeProhibitedContent text (str "foo, \"bar baz\", qux") = some out ∧
      containsWW (str "foo") out = false ∧
      containsWW (str "bar baz") out = false) ∧
    removeProhibitedContent (str "I like FOO and Bar Baz")
        (str "foo, \"bar baz\", qux") =
      some (str "I like [alternative] and [alternative]") := by
  refine ⟨by decide, ?_, by decide⟩
  intro text
  have hterms : avoidTerms (str "foo, \"bar baz\", qux") =
      some [str "foo", str "bar baz", str "qux"] := by decide
  refine ⟨[str "foo", str "bar baz", str "qux"].foldl
    (fun acc u => replaceWW u altRepl acc) text, ?_, ?_, ?_⟩
  · unfold removeProhibitedContent
    rw [hterms]
    rfl
  · exact fold_absent [str "foo", str "bar baz", str "qux"] text (by decide)
      (str "foo") (by decide)
  · exact fold_absent [str "foo", str "bar baz", str "qux"] text (by decide)
      (str "bar baz") (by decide)

/-- C3 counterexample: with the avoid specification "]x, q-", whose parsed
terms do not include the word "alternative", suppressing the text "a q-x"
twice differs from suppressing it once: the bracket inserted by the first
pass completes a fresh whole-word match of the term "]x", so suppression
is not idempotent as claimed. -/
theorem removeProhibitedContent_idempotence_counterexample :
    avoidTerms (str "]x, q-") = some [str "]x", str "q-"] ∧
    str "alternative" ∉ [str "]x", str "q-"] ∧
    removeProhibitedContent (str "a q-x") (str "]x, q-") =
      some (str "a [alternative]x") ∧
    removeProhibitedContent (str "a [alternative]x") (str "]x, q-") =
      some (str "a [alternative[alternative]") ∧
    str "a [alternative[alternative]" ≠ str "a [alternative]x" := by
  decide

/-- C3 amended: suppression is idempotent whenever every parsed avoid term
is bracket-free and differs from the word "alternative" (parsed terms are
always nonempty and lowercase, which termOK also records): the first pass
removes every whole-word occurrence of every term and no replacement can
recreate one, so the second pass replaces nothing. -/
theorem removeProhibitedContent_idempotent_amended
    (spec text : List Char) (terms : List (List Char))
    (hp : avoidTerms spec = some terms)
    (hok : ∀ t ∈ terms, termOK t = true) :
    ∃ out, removeProhibitedContent text spec = some out ∧
      removeProhibitedContent out spec = some out := by
  refine ⟨terms.foldl (fun acc u => replaceWW u altRepl acc) text, ?_, ?_⟩
  · unfold removeProhibitedContent
    rw [hp]
    rfl
  · unfold removeProhibitedContent
    rw [hp]
    exact congrArg some (fold_id terms
      (terms.foldl (fun acc u => replaceWW u altRepl acc) text)
      (fold_absent terms text hok))

/-- Witness: the amended idempotence theorem applied to the avoid
specification "foo" and the text "Use FOO now". -/
theorem removeProhibitedContent_idempotent_amended_witness :
    ∃ out,
      removeProhibitedContent (str "Use FOO now") (str "foo") = some out ∧
      removeProhibitedContent out (str "foo") = some out :=
  removeProhibitedContent_idempotent_amended (str "foo") (str "Use FOO now")
    [str "foo"] (by decide) (by decide)

end WP
